import Mathlib

/-!
Shallow embedding of the log parser of `consensus_visualizer`
(`src/parser/parser_logs.py`) together with the surrounding data model
(`src/models.py`).  Python floats that carry epoch-millisecond timestamps
are modelled as exact rationals `ℚ`; Python `dict`s are modelled as
association lists with insertion-order-preserving update (matching the
iteration-order semantics of Python dicts); a raised `AssertionError` or
`KeyError` is modelled with `Except ParseError`.

A raw text line is modelled by the record `Line` holding, for each regular
expression the source applies, the result of that regex on the line:
`none`/`false` when the pattern does not occur, and the captured groups
otherwise.  This abstracts the string matching itself but keeps every
branch of the parser's control flow.
-/

namespace ConsensusVisualizer

/-- Association-list lookup: the value bound to the first occurrence of the
key, mirroring a Python `dict` access `d.get(k)` / `d[k]`. -/
def alookup {α β : Type} [DecidableEq α] (k : α) : List (α × β) → Option β
  | [] => none
  | (k1, v) :: rest => if k1 = k then some v else alookup k rest

/-- Association-list update, mirroring a Python `dict` assignment
`d[k] = v`: replaces the binding in place when the key is present
(Python dicts keep the original insertion position on overwrite),
otherwise appends the new binding at the end. -/
def aset {α β : Type} [DecidableEq α] (k : α) (v : β) : List (α × β) → List (α × β)
  | [] => [(k, v)]
  | (k1, v1) :: rest => if k1 = k then (k, v) :: rest else (k1, v1) :: aset k v rest

/-- `slot_id_type = tuple[str, int]` of the source. -/
abbrev slot_id_type := String × Nat

/-- `VoteData` dataclass of `parser_logs.py`. -/
structure VoteData where
  vote : String
  t_ms : ℚ
  v_id : Nat
  weight : Nat
deriving DecidableEq, Repr

/-- `SlotData` dataclass of `models.py`. -/
structure SlotData where
  valgroup_id : String
  slot : Nat
  is_empty : Bool
  slot_start_est_ms : ℚ
  block_id : Option String
  collator : Option Nat
deriving DecidableEq, Repr

/-- `EventData` dataclass of `models.py` (`validator` and `t1_ms` default to
`None` in the source; here every construction site passes them explicitly). -/
structure EventData where
  valgroup_id : String
  slot : Nat
  label : String
  kind : String
  t_ms : ℚ
  validator : Option Nat
  t1_ms : Option ℚ
deriving DecidableEq, Repr

/-- `ConsensusData` dataclass of `models.py`. -/
structure ConsensusData where
  slots : List SlotData
  events : List EventData
deriving DecidableEq, Repr

/-- The `TARGET_TO_LABEL` table of `parser_logs.py`. -/
def TARGET_TO_LABEL : List (String × String) :=
  [("CandidateReceived", "candidate_received"),
   ("CollateStarted", "collate_started"),
   ("CollateFinished", "collate_finished"),
   ("ValidateStarted", "validate_started"),
   ("ValidateFinished", "validate_finished"),
   ("NotarObserved", "notarize_observed"),
   ("FinalObserved", "finalize_observed")]

/-- The timestamp token `[YYYY-MM-DD HH:MM:SS.ffffff]` captured by
`_extract_timestamp`'s regex: year, month, day, hour, minute, second,
microsecond. -/
structure TsTok where
  year : Nat
  month : Nat
  day : Nat
  hour : Nat
  minute : Nat
  second : Nat
  micro : Nat
deriving DecidableEq, Repr

/-- One raw log line, abstracted to the outcomes of the substring tests and
regular expressions the parser applies to it. `none` / `false` means the
pattern does not occur in the line; `some` carries the captured groups. -/
structure Line where
  /-- Result of the `\[(\d{4}-\d{2}-\d{2} \d{2}:\d{2}:\d{2}\.\d{6})\]` regex
  of `_extract_timestamp`. -/
  tsTok : Option TsTok
  /-- Result of the `valgroup\(([^)]+)\)\.(\d+)` regex of `_extract_valgroup`:
  the two captured groups (name, index). -/
  valgroupTok : Option (String × Nat)
  /-- Substring test `"We are validator" in line`. -/
  hasWeAreValidator : Bool
  /-- Capture of `We are validator (\d+)`. -/
  validatorIdTok : Option Nat
  /-- Capture of `with weight (\d+)`. -/
  weightTok : Option Nat
  /-- Capture of `out of (\d+)`. -/
  outOfTok : Option Nat
  /-- Substring test `"StatsTargetReached" in line`. -/
  hasStatsTargetReached : Bool
  /-- Captures of `target=(\w+),\s*slot=(\d+),\s*timestamp=([\d.]+)`:
  the target word and the slot; the third group must be present for the
  regex to match but its value is never read by the source. -/
  statsTok : Option (String × Nat)
  /-- Substring test `"Obtained certificate for SkipVote" in line`. -/
  hasSkipCert : Bool
  /-- Capture of `slot=(\d+)` (used by `_parse_skip_vote`). -/
  slotTok : Option Nat
  /-- Substring test `"Published event" in line`. -/
  hasPublishedEvent : Bool
  /-- Substring test `"BroadcastVote" in line`. -/
  hasBroadcastVote : Bool
  /-- Substring test `"SkipVote" in line`. -/
  hasSkipVoteWord : Bool
  /-- Capture of `id=\{(\d+)` (vote-broadcast slot). -/
  voteIdTok : Option Nat
  /-- Capture of `vote=(\w+)` (vote kind). -/
  voteKindTok : Option String
  /-- Substring test `"OurLeaderWindowStarted" in line`. -/
  hasLeaderWindow : Bool
  /-- Capture of `start_slot=(\d+)`. -/
  startSlotTok : Option Nat
  /-- Capture of `end_slot=(\d+)`. -/
  endSlotTok : Option Nat
deriving DecidableEq, Repr

/-- A line whose every pattern is absent; concrete test lines are built by
overriding its fields. -/
def blankLine : Line :=
  ⟨none, none, false, none, none, none, false, none, false, none,
   false, false, false, none, none, false, none, none⟩

/-- A raised Python exception aborting the parse: `AssertionError` (a
failed `assert` on a missing capture, carrying the offending line) or
`KeyError` (a missing dict key). -/
inductive ParseError where
  | assertionError (line : Line)
  | keyError (key : String)
deriving DecidableEq, Repr

/-- Days between a proleptic-Gregorian civil date and 1970-01-01
(Howard Hinnant's `days_from_civil` algorithm, the arithmetic underlying
`datetime`'s calendar). -/
def daysFromCivil (y m d : Int) : Int :=
  let y2 : Int := if m ≤ 2 then y - 1 else y
  let era : Int := (if 0 ≤ y2 then y2 else y2 - 399) / 400
  let yoe : Int := y2 - era * 400
  let mp : Int := if 2 < m then m - 3 else m + 9
  let doy : Int := (153 * mp + 2) / 5 + d - 1
  let doe : Int := yoe * 365 + yoe / 4 - yoe / 100 + doy
  era * 146097 + doe - 719468

/-- Epoch seconds of the wall-clock fields of a timestamp token as computed
by `datetime.strptime(s, "%Y-%m-%d %H:%M:%S.%f").timestamp()`.  The
`datetime` produced by `strptime` is naive, and `timestamp()` interprets a
naive datetime in the host's local timezone, so the result depends on the
host's UTC offset at that wall-clock time; `off` is that offset in seconds
east of UTC (0 on a host running in UTC). -/
def naive_timestamp (off : Int) (t : TsTok) : ℚ :=
  ((daysFromCivil t.year t.month t.day * 86400
      + t.hour * 3600 + t.minute * 60 + t.second - off : Int) : ℚ)
    + (t.micro : ℚ) / 1000000

/-- `ParserLogs._extract_timestamp`, parameterised by the host's UTC offset
`off` in seconds: `dt.timestamp() * 1000`. -/
def extract_timestamp (off : Int) (line : Line) : Option ℚ :=
  match line.tsTok with
  | none => none
  | some t => some (naive_timestamp off t * 1000)

/-- Modelled from the spec: "a timestamp token of fixed format
`[YYYY-MM-DD HH:MM:SS.ffffff]` (UTC, microsecond precision) converted to
epoch milliseconds as a real number with fractional-millisecond precision
preserved" — the token's wall-clock fields interpreted as UTC, in epoch
milliseconds. -/
def utc_epoch_ms (t : TsTok) : ℚ :=
  ((daysFromCivil t.year t.month t.day * 86400
      + t.hour * 3600 + t.minute * 60 + t.second : Int) : ℚ) * 1000
    + (t.micro : ℚ) / 1000

/-- `ParserLogs._extract_valgroup`: combines the two captured groups into
`"<name>.<index>"`. -/
def extract_valgroup (line : Line) : Option String :=
  match line.valgroupTok with
  | none => none
  | some (name, idx) => some (name ++ "." ++ toString idx)

/-- The mutable state of a `ParserLogs` instance that is shared across all
input files (`self.slots`, `self.collated`, `self.votes`,
`self.total_weights`, `self.slot_leaders`, `self.events`). -/
structure ParserState where
  slots : List (slot_id_type × SlotData)
  collated : List (slot_id_type × List (String × EventData))
  votes : List (slot_id_type × List (String × List VoteData))
  total_weights : List (String × Nat)
  slot_leaders : List (slot_id_type × Nat)
  events : List EventData
deriving DecidableEq, Repr

/-- The state of a fresh `ParserLogs` instance (its `__init__`). -/
def initState : ParserState := ⟨[], [], [], [], [], []⟩

/-- The per-file registries `v_groups` and `v_weights` created afresh for
every input file in `ParserLogs.parse`. -/
structure FileRegistry where
  v_groups : List (String × Nat)
  v_weights : List (String × Nat)
deriving DecidableEq, Repr

/-- `ParserLogs._parse_stats_target_reached`.  Returns silently (state
unchanged) when the stats regex does not match. -/
def parse_stats_target_reached (st : ParserState) (line : Line) (t_ms : ℚ)
    (v_group : String) (v_id : Nat) : ParserState :=
  match line.statsTok with
  | none => st
  | some (target, slot) =>
    let slot_id : slot_id_type := (v_group, slot)
    let st :=
      match alookup slot_id st.slots with
      | none =>
        { st with slots :=
          (aset slot_id (⟨v_group, slot, false, t_ms, none, none⟩ : SlotData) st.slots) }
      | some _ => st
    let st :=
      match alookup slot_id st.slots with
      | none => st
      | some sd =>
        { st with slots :=
            (aset slot_id ({ sd with slot_start_est_ms := min t_ms sd.slot_start_est_ms }) st.slots) }
    let st :=
      if target = "CollateStarted" then
        match alookup slot_id st.slots with
        | none => st
        | some sd => { st with slots := aset slot_id ({ sd with collator := some v_id }) st.slots }
      else st
    let st :=
      if target = "FinalObserved" ∧ alookup (v_group, slot + 1) st.slot_leaders = some v_id then
        { st with events := (st.events ++
            [(⟨v_group, slot, "finalize_observed_by_next_leader", "observed", t_ms, none,
              none⟩ : EventData)]) }
      else st
    match alookup target TARGET_TO_LABEL with
    | none => st
    | some label =>
      let ev : EventData := ⟨v_group, slot, label, "local", t_ms, some v_id, none⟩
      let st := { st with events := st.events ++ [ev] }
      if label = "collate_started" ∨ label = "collate_finished" then
        { st with collated :=
            (aset slot_id (aset label ev ((alookup slot_id st.collated).getD [])) st.collated) }
      else st

/-- `ParserLogs._parse_skip_vote`; the `assert slot_match is not None`
becomes a `ParseError.assertionError`. -/
def parse_skip_vote (st : ParserState) (line : Line) (t_ms : ℚ)
    (v_group : String) (v_id : Nat) : Except ParseError ParserState :=
  match line.slotTok with
  | none => .error (.assertionError line)
  | some slot =>
    let slot_id : slot_id_type := (v_group, slot)
    let st := { st with events := (st.events ++
        [(⟨v_group, slot, "skip_observed", "local", t_ms, some v_id, none⟩ : EventData)]) }
    match alookup slot_id st.slots with
    | none =>
      .ok { st with slots :=
        (aset slot_id (⟨v_group, slot, true, t_ms, none, none⟩ : SlotData) st.slots) }
    | some sd =>
      .ok { st with slots := aset slot_id ({ sd with is_empty := true }) st.slots }

/-- `ParserLogs._parse_publish_event`; each failed `assert` and the direct
`v_weights[v_group]` dict access become `ParseError`s. -/
def parse_publish_event (st : ParserState) (line : Line) (t_ms : ℚ)
    (v_group : String) (v_id : Nat) (v_weights : List (String × Nat)) :
    Except ParseError ParserState :=
  if line.hasBroadcastVote ∧ ¬ line.hasSkipVoteWord then
    match line.voteIdTok with
    | none => .error (.assertionError line)
    | some slot =>
      let slot_id : slot_id_type := (v_group, slot)
      match line.voteKindTok with
      | none => .error (.assertionError line)
      | some vote =>
        match alookup v_group v_weights with
        | none => .error (.keyError v_group)
        | some w =>
          let inner := (alookup slot_id st.votes).getD []
          let lst := (alookup vote inner).getD []
          .ok { st with votes :=
              (aset slot_id (aset vote (lst ++ [(⟨vote, t_ms, v_id, w⟩ : VoteData)]) inner) st.votes) }
  else if line.hasLeaderWindow then
    match line.startSlotTok with
    | none => .error (.assertionError line)
    | some start_slot =>
      match line.endSlotTok with
      | none => .error (.assertionError line)
      | some end_slot =>
        let upd := (List.range' start_slot (end_slot - start_slot)).foldl
          (fun acc s => aset (v_group, s) v_id acc) st.slot_leaders
        .ok { st with slot_leaders := upd }
  else
    .ok st

/-- `ParserLogs._parse_validator_info`: registers the per-file validator id
and weight and the shared committee total weight; returns the updated
per-file registry and `total_weights`.  Note the source mutates
`v_groups[v_group]` before asserting the weight capture, so a line failing
the later asserts leaves a partial registration behind (the error aborts
the whole parse anyway). -/
def parse_validator_info (line : Line) (v_group : String) (reg : FileRegistry)
    (total_weights : List (String × Nat)) :
    Except ParseError (FileRegistry × List (String × Nat)) :=
  if ¬ line.hasWeAreValidator then
    .ok (reg, total_weights)
  else
    match line.validatorIdTok with
    | none => .error (.assertionError line)
    | some vid =>
      let reg := { reg with v_groups := aset v_group vid reg.v_groups }
      match line.weightTok with
      | none => .error (.assertionError line)
      | some w =>
        let reg := { reg with v_weights := aset v_group w reg.v_weights }
        match line.outOfTok with
        | none => .error (.assertionError line)
        | some tw =>
          .ok (reg, aset v_group tw total_weights)

/-- `ParserLogs._process_log_line`: dispatch on the category keyword, after
resolving the acting validator id from the per-file registry (silently
dropping the line when the committee has no registration in this file). -/
def process_log_line (st : ParserState) (line : Line) (v_group : String)
    (t_ms : ℚ) (reg : FileRegistry) : Except ParseError ParserState :=
  match alookup v_group reg.v_groups with
  | none => .ok st
  | some v_id =>
    if line.hasStatsTargetReached then
      .ok (parse_stats_target_reached st line t_ms v_group v_id)
    else if line.hasSkipCert then
      parse_skip_vote st line t_ms v_group v_id
    else if line.hasPublishedEvent then
      parse_publish_event st line t_ms v_group v_id reg.v_weights
    else
      .ok st

/-- The body of the per-line loop in `ParserLogs.parse`: skip the line when
the timestamp or the committee token is absent, otherwise run
`_parse_validator_info` then `_process_log_line`. -/
def process_line (off : Int) (st : ParserState) (reg : FileRegistry)
    (line : Line) : Except ParseError (ParserState × FileRegistry) :=
  match extract_timestamp off line with
  | none => .ok (st, reg)
  | some t_ms =>
    match extract_valgroup line with
    | none => .ok (st, reg)
    | some v_group =>
      match parse_validator_info line v_group reg st.total_weights with
      | .error e => .error e
      | .ok (reg2, tw) =>
        match process_log_line { st with total_weights := tw } line v_group t_ms reg2 with
        | .error e => .error e
        | .ok st2 => .ok (st2, reg2)

/-- The per-file loop of `ParserLogs.parse` over the lines of one file. -/
def process_lines (off : Int) (st : ParserState) (reg : FileRegistry) :
    List Line → Except ParseError ParserState
  | [] => .ok st
  | line :: rest =>
    match process_line off st reg line with
    | .error e => .error e
    | .ok (st2, reg2) => process_lines off st2 reg2 rest

/-- Processing of one input file: fresh per-file registries, then the line
loop. -/
def process_file (off : Int) (st : ParserState) (lines : List Line) :
    Except ParseError ParserState :=
  process_lines off st ⟨[], []⟩ lines

/-- The outer loop of `ParserLogs.parse` over all input files. -/
def process_files (off : Int) (st : ParserState) :
    List (List Line) → Except ParseError ParserState
  | [] => .ok st
  | f :: rest =>
    match process_file off st f with
    | .error e => .error e
    | .ok st2 => process_files off st2 rest

/-- The ascending-by-timestamp stable sort `sorted(votes, key=lambda x: x.t_ms)`
used by `_process_vote_threshold` (insertion sort is stable, like Python's
`sorted`, and extensionally any two stable sorts agree). -/
def sortVotes (votes : List VoteData) : List VoteData :=
  List.insertionSort (fun a b => a.t_ms ≤ b.t_ms) votes

/-- The accumulation loop of `ParserLogs._process_vote_threshold` over the
already-sorted votes: running weight `current_weight`, stop at the first
vote whose inclusion reaches the threshold, emitting the `{label}_reached`
and `{label}` phase events and returning the crossing timestamp. -/
def vote_threshold_loop (slot_data : SlotData) (weight_threshold : Nat)
    (label : String) (phase_start : ℚ) (current_weight : Nat) :
    List VoteData → List EventData × Option ℚ
  | [] => ([], none)
  | vote :: rest =>
    let cw := current_weight + vote.weight
    if weight_threshold ≤ cw then
      ([⟨slot_data.valgroup_id, slot_data.slot, label ++ "_reached", "reached",
          vote.t_ms, none, none⟩,
        ⟨slot_data.valgroup_id, slot_data.slot, label, "phase",
          phase_start, none, some vote.t_ms⟩],
       some vote.t_ms)
    else
      vote_threshold_loop slot_data weight_threshold label phase_start cw rest

/-- `ParserLogs._process_vote_threshold`, returning the events it appends to
`self.events` together with its return value. -/
def process_vote_threshold (slot_data : SlotData) (votes : List VoteData)
    (weight_threshold : Nat) (label : String) (phase_start : ℚ) :
    List EventData × Option ℚ :=
  vote_threshold_loop slot_data weight_threshold label phase_start 0 (sortVotes votes)

/-- The body of the per-slot loop of `ParserLogs._infer_slot_events`,
returning the events appended for one slot.  The unguarded dict access
`self.total_weights[slot_id[0]]` becomes a `ParseError.keyError` when the
committee has no registered total weight. -/
def infer_one (collated : List (slot_id_type × List (String × EventData)))
    (votes : List (slot_id_type × List (String × List VoteData)))
    (total_weights : List (String × Nat)) (p : slot_id_type × SlotData) :
    Except ParseError (List EventData) :=
  let slot_id := p.1
  let slot_data := p.2
  let estEv : EventData := ⟨slot_data.valgroup_id, slot_data.slot, "slot_start_est",
      "estimate", slot_data.slot_start_est_ms, none, none⟩
  let collPair : List EventData × Option ℚ :=
    match alookup slot_id collated with
    | none => ([], none)
    | some m =>
      match alookup "collate_started" m, alookup "collate_finished" m with
      | some cs, some cf =>
        ([⟨slot_data.valgroup_id, slot_data.slot, "collate", "phase",
            cs.t_ms, none, some cf.t_ms⟩], some cf.t_ms)
      | some _, none => ([], none)
      | none, _ => ([], none)
  match alookup slot_id.1 total_weights with
  | none => .error (.keyError slot_id.1)
  | some total_weight =>
    let weight_threshold := total_weight * 2 / 3 + 1
    let notarPair : List EventData × Option ℚ :=
      match alookup slot_id votes with
      | none => ([], none)
      | some vm =>
        match alookup "NotarizeVote" vm, collPair.2 with
        | some vs, some collate_end =>
          process_vote_threshold slot_data vs weight_threshold "notarize" collate_end
        | some _, none => ([], none)
        | none, _ => ([], none)
    let finalPair : List EventData × Option ℚ :=
      match alookup slot_id votes with
      | none => ([], none)
      | some vm =>
        match alookup "FinalizeVote" vm, notarPair.2 with
        | some vs, some notarize_reached =>
          process_vote_threshold slot_data vs weight_threshold "finalize" notarize_reached
        | some _, none => ([], none)
        | none, _ => ([], none)
    .ok (estEv :: (collPair.1 ++ notarPair.1 ++ finalPair.1))

/-- The loop of `_infer_slot_events` over `self.slots.items()`, collecting
the events appended for each slot in iteration (= insertion) order. -/
def infer_blocks (collated : List (slot_id_type × List (String × EventData)))
    (votes : List (slot_id_type × List (String × List VoteData)))
    (total_weights : List (String × Nat)) :
    List (slot_id_type × SlotData) → Except ParseError (List EventData)
  | [] => .ok []
  | p :: rest =>
    match infer_one collated votes total_weights p with
    | .error e => .error e
    | .ok b =>
      match infer_blocks collated votes total_weights rest with
      | .error e => .error e
      | .ok bs => .ok (b ++ bs)

/-- `ParserLogs._infer_slot_events`: the post-parse inference pass, which
reads `collated` / `votes` / `total_weights` and appends derived events. -/
def infer_slot_events (st : ParserState) : Except ParseError ParserState :=
  match infer_blocks st.collated st.votes st.total_weights st.slots with
  | .error e => .error e
  | .ok blocks => .ok { st with events := (st.events ++ blocks) }

/-- `ParserLogs.parse` started from an arbitrary parser state: process every
file, run the inference pass, and return
`ConsensusData(slots=list(self.slots.values()), events=self.events)`. -/
def parse_from (off : Int) (st : ParserState) (files : List (List Line)) :
    Except ParseError ConsensusData :=
  match process_files off st files with
  | .error e => .error e
  | .ok st2 =>
    match infer_slot_events st2 with
    | .error e => .error e
    | .ok st3 => .ok ⟨st3.slots.map Prod.snd, st3.events⟩

/-- `ParserLogs.parse` of a fresh `ParserLogs` instance, parameterised by
the host's UTC offset `off` (see `extract_timestamp`); each input file is
its list of lines. -/
def parse (off : Int) (files : List (List Line)) : Except ParseError ConsensusData :=
  parse_from off initState files

/-! ## Association-list lemmas -/

theorem alookup_aset_self {α β : Type} [DecidableEq α] (k : α) (v : β) (l : List (α × β)) :
    alookup k (aset k v l) = some v := by
  induction l with
  | nil => simp [aset, alookup]
  | cons p rest ih =>
    obtain ⟨k1, v1⟩ := p
    by_cases h : k1 = k
    · subst h
      simp [aset, alookup]
    · simp [aset, alookup, h, ih]

theorem alookup_aset_ne {α β : Type} [DecidableEq α] {k k2 : α} (h : k2 ≠ k) (v : β)
    (l : List (α × β)) : alookup k (aset k2 v l) = alookup k l := by
  induction l with
  | nil => simp [aset, alookup, h]
  | cons p rest ih =>
    obtain ⟨k1, v1⟩ := p
    by_cases h1 : k1 = k2
    · subst h1
      simp [aset, alookup, h]
    · by_cases h2 : k1 = k
      · subst h2
        simp [aset, alookup, h1]
      · simp [aset, alookup, h1, h2, ih]

theorem mem_aset {α β : Type} [DecidableEq α] {p : α × β} {k : α} {v : β}
    {l : List (α × β)} (h : p ∈ aset k v l) : p = (k, v) ∨ p ∈ l := by
  induction l with
  | nil => simpa [aset] using h
  | cons q rest ih =>
    obtain ⟨k1, v1⟩ := q
    by_cases h1 : k1 = k
    · subst h1
      rcases (by simpa [aset] using h : p = (k1, v) ∨ p ∈ rest) with h2 | h2
      · exact Or.inl (by simpa using h2)
      · exact Or.inr (List.mem_cons_of_mem _ h2)
    · rcases (by simpa [aset, h1] using h : p = (k1, v1) ∨ p ∈ aset k v rest) with h2 | h2
      · exact Or.inr (by simp [h2])
      · rcases ih h2 with h3 | h3
        · exact Or.inl h3
        · exact Or.inr (List.mem_cons_of_mem _ h3)

theorem aset_aset {α β : Type} [DecidableEq α] (k : α) (v1 v2 : β) (l : List (α × β)) :
    aset k v2 (aset k v1 l) = aset k v2 l := by
  induction l with
  | nil => simp [aset]
  | cons p rest ih =>
    obtain ⟨k1, w⟩ := p
    by_cases h1 : k1 = k
    · subst h1
      simp [aset]
    · simp [aset, h1, ih]

theorem alookup_isSome_of_mem {α β : Type} [DecidableEq α] {k : α} {v : β}
    {l : List (α × β)} (h : (k, v) ∈ l) : ∃ v2, alookup k l = some v2 := by
  induction l with
  | nil => cases h
  | cons q rest ih =>
    obtain ⟨k1, v1⟩ := q
    by_cases h1 : k1 = k
    · exact ⟨v1, by simp [alookup, h1]⟩
    · rcases List.mem_cons.mp h with h2 | h2
      · cases h2; simp at h1
      · simpa [alookup, h1] using ih h2

theorem mem_of_alookup_eq_some {α β : Type} [DecidableEq α] {k : α} {v : β}
    {l : List (α × β)} (h : alookup k l = some v) : (k, v) ∈ l := by
  induction l with
  | nil => simp [alookup] at h
  | cons q rest ih =>
    obtain ⟨k1, v1⟩ := q
    by_cases h1 : k1 = k
    · subst h1
      simp [alookup] at h
      simp [h]
    · simp only [alookup, if_neg h1] at h
      exact List.mem_cons_of_mem _ (ih h)

/-! ## Quorum-evaluator lemmas -/

/-- Total stake weight of a list of votes. -/
def votesWeight (l : List VoteData) : Nat := (l.map VoteData.weight).sum

theorem votesWeight_append (l1 l2 : List VoteData) :
    votesWeight (l1 ++ l2) = votesWeight l1 + votesWeight l2 := by
  simp [votesWeight]

theorem votesWeight_sortVotes (l : List VoteData) :
    votesWeight (sortVotes l) = votesWeight l := by
  unfold votesWeight sortVotes
  exact List.Perm.sum_eq (List.Perm.map _ (List.perm_insertionSort _ l))

theorem sortVotes_sorted (l : List VoteData) :
    List.Pairwise (fun a b : VoteData => a.t_ms ≤ b.t_ms) (sortVotes l) := by
  haveI : IsTotal VoteData (fun a b : VoteData => a.t_ms ≤ b.t_ms) :=
    ⟨fun a b => le_total a.t_ms b.t_ms⟩
  haveI : IsTrans VoteData (fun a b : VoteData => a.t_ms ≤ b.t_ms) :=
    ⟨fun _ _ _ h1 h2 => le_trans h1 h2⟩
  exact List.sorted_insertionSort _ l

/-- The loop of `_process_vote_threshold` either finds no crossing and
emits nothing, or finds one and emits exactly the reached event and the
phase event at the crossing timestamp. -/
theorem vote_threshold_loop_shape (sd : SlotData) (θ : Nat) (label : String)
    (ps : ℚ) (acc : Nat) (l : List VoteData) :
    vote_threshold_loop sd θ label ps acc l = ([], none) ∨
    ∃ t : ℚ, vote_threshold_loop sd θ label ps acc l =
      ([⟨sd.valgroup_id, sd.slot, label ++ "_reached", "reached", t, none, none⟩,
        ⟨sd.valgroup_id, sd.slot, label, "phase", ps, none, some t⟩], some t) := by
  induction l generalizing acc with
  | nil => exact Or.inl rfl
  | cons v rest ih =>
    by_cases h : θ ≤ acc + v.weight
    · exact Or.inr ⟨v.t_ms, by simp [vote_threshold_loop, h]⟩
    · simpa [vote_threshold_loop, h] using ih (acc + v.weight)

/-- The crossing timestamp returned by the loop is the timestamp of some
vote in the list. -/
theorem vote_threshold_loop_mem {sd : SlotData} {θ : Nat} {label : String}
    {ps : ℚ} {acc : Nat} {l : List VoteData} {t : ℚ}
    (h : (vote_threshold_loop sd θ label ps acc l).2 = some t) :
    ∃ v ∈ l, t = v.t_ms := by
  induction l generalizing acc with
  | nil => simp [vote_threshold_loop] at h
  | cons v rest ih =>
    by_cases hc : θ ≤ acc + v.weight
    · simp [vote_threshold_loop, hc] at h
      exact ⟨v, List.mem_cons_self v rest, h.symm⟩
    · simp only [vote_threshold_loop, if_neg hc] at h
      obtain ⟨w, hw, ht⟩ := ih h
      exact ⟨w, List.mem_cons_of_mem _ hw, ht⟩

/-- Full characterisation of the loop: assuming the running weight is still
below the threshold, it returns `some t` exactly when the list splits at
the first vote whose inclusion reaches the threshold, and then `t` is that
vote's timestamp and the emitted events are the reached and phase events. -/
theorem vote_threshold_loop_some_iff (sd : SlotData) (θ : Nat) (label : String)
    (ps : ℚ) (acc : Nat) (hacc : acc < θ) (l : List VoteData)
    (evs : List EventData) (t : ℚ) :
    vote_threshold_loop sd θ label ps acc l = (evs, some t) ↔
      ∃ pre v post, l = pre ++ v :: post ∧
        acc + votesWeight pre < θ ∧ θ ≤ acc + votesWeight pre + v.weight ∧
        t = v.t_ms ∧
        evs = [⟨sd.valgroup_id, sd.slot, label ++ "_reached", "reached", v.t_ms, none, none⟩,
               ⟨sd.valgroup_id, sd.slot, label, "phase", ps, none, some v.t_ms⟩] := by
  induction l generalizing acc with
  | nil =>
    constructor
    · intro h
      exact absurd (congrArg Prod.snd h) (by simp [vote_threshold_loop])
    · rintro ⟨pre, v, post, habs, -⟩
      exact absurd habs (by simp)
  | cons w rest ih =>
    by_cases hc : θ ≤ acc + w.weight
    · constructor
      · intro h
        rw [show vote_threshold_loop sd θ label ps acc (w :: rest) =
            ([⟨sd.valgroup_id, sd.slot, label ++ "_reached", "reached", w.t_ms, none, none⟩,
              ⟨sd.valgroup_id, sd.slot, label, "phase", ps, none, some w.t_ms⟩],
             some w.t_ms) from by simp [vote_threshold_loop, hc]] at h
        have hevs := congrArg Prod.fst h
        have ht := congrArg Prod.snd h
        simp only at hevs ht
        exact ⟨[], w, rest, rfl, by simpa [votesWeight] using hacc,
          by simpa [votesWeight] using hc, (Option.some.inj ht).symm, hevs.symm⟩
      · rintro ⟨pre, v, post, hsplit, hlt, hge, ht, hevs⟩
        have hpre : pre = [] := by
          cases pre with
          | nil => rfl
          | cons p ps2 =>
            exfalso
            have hw : w = p := by
              have := congrArg List.head? hsplit
              simpa using this
            subst hw
            have hle : acc + w.weight ≤ acc + votesWeight (w :: ps2) := by
              simp [votesWeight]
            omega
        subst hpre
        have hv : w = v := by
          have := congrArg List.head? hsplit
          simpa using this
        subst hv
        subst ht
        simp [vote_threshold_loop, hc, hevs]
    · have hacc2 : acc + w.weight < θ := by omega
      have hstep : vote_threshold_loop sd θ label ps acc (w :: rest) =
          vote_threshold_loop sd θ label ps (acc + w.weight) rest := by
        simp [vote_threshold_loop, hc]
      constructor
      · intro h
        rw [hstep] at h
        obtain ⟨pre, v, post, hsplit, hlt, hge, ht, hevs⟩ := (ih _ hacc2).mp h
        refine ⟨w :: pre, v, post, by simp [hsplit], ?_, ?_, ht, hevs⟩
        · simp only [votesWeight, List.map_cons, List.sum_cons]
          simp only [votesWeight] at hlt
          omega
        · simp only [votesWeight, List.map_cons, List.sum_cons]
          simp only [votesWeight] at hge
          omega
      · rintro ⟨pre, v, post, hsplit, hlt, hge, ht, hevs⟩
        cases pre with
        | nil =>
          exfalso
          have hv : w = v := by
            have := congrArg List.head? hsplit
            simpa using this
          subst hv
          simp [votesWeight] at hge
          omega
        | cons p pre2 =>
          have hw : w = p := by
            have := congrArg List.head? hsplit
            simpa using this
          subst hw
          have hrest : rest = pre2 ++ v :: post := by
            simpa using congrArg List.tail hsplit
          rw [hstep]
          refine (ih _ hacc2).mpr ⟨pre2, v, post, hrest, ?_, ?_, ht, hevs⟩
          · simp only [votesWeight, List.map_cons, List.sum_cons] at hlt
            simp only [votesWeight]
            omega
          · simp only [votesWeight, List.map_cons, List.sum_cons] at hge
            simp only [votesWeight]
            omega

/-- Assuming the running weight is still below the threshold, the loop
returns `none` exactly when even the whole remaining weight stays below
the threshold, and then it emits no event. -/
theorem vote_threshold_loop_none_iff (sd : SlotData) (θ : Nat) (label : String)
    (ps : ℚ) (acc : Nat) (hacc : acc < θ) (l : List VoteData) (evs : List EventData) :
    vote_threshold_loop sd θ label ps acc l = (evs, none) ↔
      (evs = [] ∧ acc + votesWeight l < θ) := by
  induction l generalizing acc with
  | nil =>
    constructor
    · intro h
      have h1 := congrArg Prod.fst h
      simp only [vote_threshold_loop] at h1
      exact ⟨h1.symm, by simpa [votesWeight] using hacc⟩
    · rintro ⟨h1, -⟩
      simp [vote_threshold_loop, h1]
  | cons w rest ih =>
    by_cases hc : θ ≤ acc + w.weight
    · constructor
      · intro h
        exfalso
        simpa [vote_threshold_loop, hc] using congrArg Prod.snd h
      · rintro ⟨-, h2⟩
        exfalso
        have : acc + w.weight ≤ acc + votesWeight (w :: rest) := by simp [votesWeight]
        omega
    · have hacc2 : acc + w.weight < θ := by omega
      constructor
      · intro h
        simp only [vote_threshold_loop, if_neg hc] at h
        obtain ⟨h1, h2⟩ := (ih _ hacc2).mp h
        refine ⟨h1, ?_⟩
        simp only [votesWeight, List.map_cons, List.sum_cons]
        simp only [votesWeight] at h2
        omega
      · rintro ⟨h1, h2⟩
        simp only [vote_threshold_loop, if_neg hc]
        refine (ih _ hacc2).mpr ⟨h1, ?_⟩
        simp only [votesWeight, List.map_cons, List.sum_cons] at h2
        simp only [votesWeight]
        omega

/-! ## Concrete fixtures used by the scenario parts, counterexamples and
witnesses -/

/-- Slot record used by the quorum-evaluator scenario. -/
def sdC1 : SlotData := ⟨"mc.0", 5, false, 0, none, none⟩

/-- The scenario votes: t=100 (weight 3), t=150 (weight 2), t=200 (weight 3). -/
def notarVotesC1 : List VoteData :=
  [⟨"NotarizeVote", 100, 0, 3⟩, ⟨"NotarizeVote", 150, 1, 2⟩, ⟨"NotarizeVote", 200, 2, 3⟩]

/-- C1.  Quorum crossing: with threshold `⌊2·total_weight/3⌋ + 1`, the
evaluator processes the votes in ascending timestamp order; it returns
`(evs, some t)` exactly when the sorted votes split at a first vote whose
inclusion reaches the threshold, `t` is that vote's timestamp, and `evs`
are exactly the `{label}_reached` (kind `reached`, at `t`) and `{label}`
(kind `phase`, `[phase_start, t]`) events; it returns `([], none)` exactly
when the total vote weight stays below the threshold.  For
`total_weight = 10` and votes at t=100 (w 3), t=150 (w 2), t=200 (w 3)
the crossing is at t=200 (threshold 7, cumulative 3, 5, 8). -/
theorem quorum_crossing_spec :
    (∀ (sd : SlotData) (votes : List VoteData) (total_weight : Nat) (label : String)
        (ps : ℚ) (evs : List EventData) (t : ℚ),
      process_vote_threshold sd votes (total_weight * 2 / 3 + 1) label ps = (evs, some t) ↔
        ∃ pre v post, sortVotes votes = pre ++ v :: post ∧
          votesWeight pre < total_weight * 2 / 3 + 1 ∧
          total_weight * 2 / 3 + 1 ≤ votesWeight pre + v.weight ∧
          t = v.t_ms ∧
          evs = [⟨sd.valgroup_id, sd.slot, label ++ "_reached", "reached", v.t_ms, none, none⟩,
                 ⟨sd.valgroup_id, sd.slot, label, "phase", ps, none, some v.t_ms⟩]) ∧
    (∀ (sd : SlotData) (votes : List VoteData) (total_weight : Nat) (label : String)
        (ps : ℚ) (evs : List EventData),
      process_vote_threshold sd votes (total_weight * 2 / 3 + 1) label ps = (evs, none) ↔
        (evs = [] ∧ votesWeight votes < total_weight * 2 / 3 + 1)) ∧
    process_vote_threshold sdC1 notarVotesC1 (10 * 2 / 3 + 1) "notarize" 60 =
      ([⟨"mc.0", 5, "notarize_reached", "reached", 200, none, none⟩,
        ⟨"mc.0", 5, "notarize", "phase", 60, none, some 200⟩], some 200) ∧
    (10 : Nat) * 2 / 3 + 1 = 7 := by
  refine ⟨?_, ?_, by decide, by decide⟩
  · intro sd votes total_weight label ps evs t
    have h0 : 0 < total_weight * 2 / 3 + 1 := Nat.succ_pos _
    unfold process_vote_threshold
    rw [vote_threshold_loop_some_iff sd _ label ps 0 h0 (sortVotes votes) evs t]
    simp only [Nat.zero_add]
  · intro sd votes total_weight label ps evs
    have h0 : 0 < total_weight * 2 / 3 + 1 := Nat.succ_pos _
    unfold process_vote_threshold
    rw [vote_threshold_loop_none_iff sd _ label ps 0 h0 (sortVotes votes) evs]
    rw [votesWeight_sortVotes]
    simp only [Nat.zero_add]

/-- The loop finds a crossing no later than with a larger threshold,
provided the votes are sorted ascending by timestamp. -/
theorem vote_threshold_loop_monotone (sd : SlotData) (label : String) (ps : ℚ)
    {θ1 θ2 : Nat} (h12 : θ1 ≤ θ2) :
    ∀ (l : List VoteData) (acc : Nat),
      List.Pairwise (fun a b : VoteData => a.t_ms ≤ b.t_ms) l →
      ∀ t2, (vote_threshold_loop sd θ2 label ps acc l).2 = some t2 →
      ∃ t1, (vote_threshold_loop sd θ1 label ps acc l).2 = some t1 ∧ t1 ≤ t2 := by
  intro l
  induction l with
  | nil =>
    intro acc _ t2 h2
    simp [vote_threshold_loop] at h2
  | cons v rest ih =>
    intro acc hp t2 h2
    have hhead : ∀ b ∈ rest, v.t_ms ≤ b.t_ms := fun b hb =>
      List.rel_of_pairwise_cons hp hb
    have htail := List.Pairwise.of_cons hp
    by_cases hc2 : θ2 ≤ acc + v.weight
    · have ht2 : t2 = v.t_ms := by
        simpa [vote_threshold_loop, hc2] using h2.symm
      have hc1 : θ1 ≤ acc + v.weight := le_trans h12 hc2
      exact ⟨v.t_ms, by simp [vote_threshold_loop, hc1], le_of_eq ht2.symm⟩
    · simp only [vote_threshold_loop, if_neg hc2] at h2
      by_cases hc1 : θ1 ≤ acc + v.weight
      · refine ⟨v.t_ms, by simp [vote_threshold_loop, hc1], ?_⟩
        obtain ⟨w, hw, hwt⟩ := vote_threshold_loop_mem h2
        exact hwt ▸ hhead w hw
      · obtain ⟨t1, h1, hle⟩ := ih (acc + v.weight) htail t2 h2
        exact ⟨t1, by simp [vote_threshold_loop, hc1, h1], hle⟩

/-- C8.  Quorum crossing is monotonic in total weight: for a fixed vote
list, with a larger total weight (hence a no-smaller threshold
`⌊2w/3⌋ + 1`), any crossing happens at a timestamp no earlier than some
crossing obtained with the smaller total weight; contrapositively, if the
smaller weight produces no crossing neither does the larger. -/
theorem crossing_monotone_total_weight (sd : SlotData) (votes : List VoteData)
    (label : String) (ps : ℚ) (w1 w2 : Nat) (h : w1 ≤ w2) (t2 : ℚ)
    (h2 : (process_vote_threshold sd votes (w2 * 2 / 3 + 1) label ps).2 = some t2) :
    ∃ t1, (process_vote_threshold sd votes (w1 * 2 / 3 + 1) label ps).2 = some t1 ∧
      t1 ≤ t2 := by
  have hθ : w1 * 2 / 3 + 1 ≤ w2 * 2 / 3 + 1 :=
    Nat.add_le_add_right (Nat.div_le_div_right (Nat.mul_le_mul_right 2 h)) 1
  unfold process_vote_threshold at h2 ⊢
  exact vote_threshold_loop_monotone sd label ps hθ (sortVotes votes) 0
    (sortVotes_sorted votes) t2 h2

/-- Witness for C8 at the scenario input: weights 9 ≤ 10, crossing with
total weight 10 at t=200, so with total weight 9 there is a crossing at
some t ≤ 200. -/
theorem crossing_monotone_total_weight_witness :
    ∃ t1, (process_vote_threshold sdC1 notarVotesC1 (9 * 2 / 3 + 1) "notarize" 60).2
        = some t1 ∧ t1 ≤ 200 :=
  crossing_monotone_total_weight sdC1 notarVotesC1 "notarize" 60 9 10 (by decide) 200
    (by decide)

/-! ## Timestamp extraction (C6) -/

/-- The epoch instant itself: 1970-01-01 00:00:00.000000. -/
def tzTok : TsTok := ⟨1970, 1, 1, 0, 0, 0, 0⟩

/-- A line carrying only the epoch timestamp token. -/
def tzLine : Line :=
  { blankLine with tsTok := some tzTok }

/-- Counterexample to C6 as stated: on a host whose UTC offset is +3600 s
(any non-UTC timezone), the extracted timestamp of the token
1970-01-01 00:00:00.000000 is not that wall-clock time interpreted as UTC
(the code's naive `datetime.timestamp()` uses the host local timezone). -/
theorem extract_timestamp_not_utc_cex :
    extract_timestamp 3600 tzLine ≠ (tzLine.tsTok).map utc_epoch_ms ∧
    extract_timestamp 3600 tzLine = some (-3600000) ∧
    (tzLine.tsTok).map utc_epoch_ms = some 0 := by
  have h1 : extract_timestamp 3600 tzLine = some (-3600000) := by
    simp only [extract_timestamp, show tzLine.tsTok = some tzTok from rfl]
    congr 1
    norm_num [naive_timestamp, tzTok, daysFromCivil]
  have h2 : (tzLine.tsTok).map utc_epoch_ms = some 0 := by
    simp only [show tzLine.tsTok = some tzTok from rfl, Option.map_some']
    congr 1
    norm_num [utc_epoch_ms, tzTok, daysFromCivil]
  refine ⟨?_, h1, h2⟩
  rw [h1, h2]
  intro h
  have h3 : (-3600000 : ℚ) = 0 := Option.some.inj h
  norm_num at h3

/-- C6 amended: the extracted timestamp is the token's wall-clock fields
interpreted in the host's local timezone (offset `off` seconds east of
UTC), i.e. the UTC epoch-millisecond interpretation shifted by
`off * 1000`; it equals the UTC interpretation exactly when the host
offset is 0; fractional-millisecond precision (`micro/1000`) is preserved
exactly; a line with no timestamp token yields `none` and is skipped by
the line loop without error or state change. -/
theorem extract_timestamp_local_offset_spec :
    (∀ line : Line, extract_timestamp 0 line = (line.tsTok).map utc_epoch_ms) ∧
    (∀ (off : Int) (line : Line) (t : TsTok), line.tsTok = some t →
      extract_timestamp off line = some (utc_epoch_ms t - (off : ℚ) * 1000)) ∧
    (∀ (off : Int) (st : ParserState) (reg : FileRegistry) (line : Line),
      line.tsTok = none → process_line off st reg line = .ok (st, reg)) := by
  refine ⟨?_, ?_, ?_⟩
  · intro line
    cases h : line.tsTok with
    | none => simp [extract_timestamp, h]
    | some t =>
      simp only [extract_timestamp, h, Option.map_some']
      congr 1
      unfold naive_timestamp utc_epoch_ms
      push_cast
      ring
  · intro off line t h
    simp only [extract_timestamp, h]
    congr 1
    unfold naive_timestamp utc_epoch_ms
    push_cast
    ring
  · intro off st reg line h
    simp [process_line, extract_timestamp, h]

/-- Witness for the amended C6 at the concrete token: at host offset
+3600 s the extraction equals the UTC value shifted by 3 600 000 ms. -/
theorem extract_timestamp_local_offset_spec_witness :
    extract_timestamp 3600 tzLine = some (utc_epoch_ms tzTok - ((3600 : Int) : ℚ) * 1000) :=
  extract_timestamp_local_offset_spec.2.1 3600 tzLine tzTok rfl

/-! ## Concrete parse fixtures -/

/-- Timestamp token `s` seconds after the epoch (so `t_ms = 1000·s` at
offset 0). -/
def tok (s : Nat) : TsTok := ⟨1970, 1, 1, 0, 0, s, 0⟩

/-- Identity-registration line: `We are validator 1 with weight 5 out of
10` for committee `mc.0`, at t = 1000 ms. -/
def idLine : Line :=
  { blankLine with
    tsTok := some (tok 1)
    valgroupTok := some ("mc", 0)
    hasWeAreValidator := true
    validatorIdTok := some 1
    weightTok := some 5
    outOfTok := some 10 }

/-- `StatsTargetReached` line `target=CollateStarted, slot=5` at
t = 2000 ms. -/
def statsLine : Line :=
  { blankLine with
    tsTok := some (tok 2)
    valgroupTok := some ("mc", 0)
    hasStatsTargetReached := true
    statsTok := some ("CollateStarted", 5) }

/-- Skip-vote-certificate line for slot 5 at t = 1000 ms. -/
def skipLine : Line :=
  { blankLine with
    tsTok := some (tok 1)
    valgroupTok := some ("mc", 0)
    hasSkipCert := true
    slotTok := some 5 }

/-- A line containing `StatsTargetReached` whose stats regex does not
match (missing sub-fields). -/
def badStatsLine : Line :=
  { blankLine with
    tsTok := some (tok 4)
    valgroupTok := some ("mc", 0)
    hasStatsTargetReached := true
    statsTok := none }

/-- A skip-vote-certificate line whose `slot=` capture is missing. -/
def badSkipLine : Line :=
  { blankLine with
    tsTok := some (tok 4)
    valgroupTok := some ("mc", 0)
    hasSkipCert := true
    slotTok := none }

/-- Leader-window announcement `start_slot=6 end_slot=7` at t = 1000 ms. -/
def windowLine : Line :=
  { blankLine with
    tsTok := some (tok 1)
    valgroupTok := some ("mc", 0)
    hasPublishedEvent := true
    hasLeaderWindow := true
    startSlotTok := some 6
    endSlotTok := some 7 }

/-- `FinalObserved` line for slot 5 at t = 3000 ms. -/
def finalObsLine : Line :=
  { blankLine with
    tsTok := some (tok 3)
    valgroupTok := some ("mc", 0)
    hasStatsTargetReached := true
    statsTok := some ("FinalObserved", 5) }

/-- File containing the identity registration and the leader-window
announcement for slots 6. -/
def fileA : List Line := [idLine, windowLine]

/-- File containing the identity registration and a FinalObserved line for
slot 5 by validator 1. -/
def fileB : List Line := [idLine, finalObsLine]

/-! ## Malformed-input handling (C4) -/

/-- Counterexample to C4 as stated: a line matching the target-reached
category keyword (`StatsTargetReached`) whose expected sub-fields are
missing is silently ignored — parsing succeeds and the result is exactly
the one obtained without that line, not a fatal error. -/
theorem malformed_target_line_ignored_cex :
    badStatsLine.hasStatsTargetReached = true ∧ badStatsLine.statsTok = none ∧
    parse 0 [[idLine, badStatsLine]] = parse 0 [[idLine]] ∧
    parse 0 [[idLine]] = .ok ⟨[], []⟩ := by
  exact ⟨rfl, rfl, rfl, rfl⟩

/-- C4 amended: a skip-vote-certificate or published-event (vote broadcast
/ leader window) line missing an expected sub-field aborts the parse with
an assertion error carrying the offending line; but a target-reached line
whose stats regex does not match is silently ignored, leaving the state
unchanged. -/
theorem malformed_field_handling :
    (∀ st line t g v, line.slotTok = none →
      parse_skip_vote st line t g v = .error (.assertionError line)) ∧
    (∀ st line t g v vw, line.hasBroadcastVote = true → line.hasSkipVoteWord = false →
      line.voteIdTok = none →
      parse_publish_event st line t g v vw = .error (.assertionError line)) ∧
    (∀ st line t g v vw slot, line.hasBroadcastVote = true → line.hasSkipVoteWord = false →
      line.voteIdTok = some slot → line.voteKindTok = none →
      parse_publish_event st line t g v vw = .error (.assertionError line)) ∧
    (∀ st line t g v vw, line.hasBroadcastVote = false → line.hasLeaderWindow = true →
      line.startSlotTok = none →
      parse_publish_event st line t g v vw = .error (.assertionError line)) ∧
    (∀ st line t g v vw s0, line.hasBroadcastVote = false → line.hasLeaderWindow = true →
      line.startSlotTok = some s0 → line.endSlotTok = none →
      parse_publish_event st line t g v vw = .error (.assertionError line)) ∧
    (∀ st line t g v, line.statsTok = none →
      parse_stats_target_reached st line t g v = st) := by
  refine ⟨?_, ?_, ?_, ?_, ?_, ?_⟩
  · intro st line t g v h
    simp [parse_skip_vote, h]
  · intro st line t g v vw h1 h2 h3
    simp [parse_publish_event, h1, h2, h3]
  · intro st line t g v vw slot h1 h2 h3 h4
    simp [parse_publish_event, h1, h2, h3, h4]
  · intro st line t g v vw h1 h2 h3
    simp [parse_publish_event, h1, h2, h3]
  · intro st line t g v vw s0 h1 h2 h3 h4
    simp [parse_publish_event, h1, h2, h3, h4]
  · intro st line t g v h
    simp [parse_stats_target_reached, h]

/-- Witness for the amended C4 at concrete inputs: the malformed skip line
aborts with the assertion error carrying it, and the malformed stats line
leaves the state unchanged. -/
theorem malformed_field_handling_witness :
    parse_skip_vote initState badSkipLine 4000 "mc.0" 1 =
        .error (.assertionError badSkipLine) ∧
    parse_stats_target_reached initState badStatsLine 4000 "mc.0" 1 = initState :=
  ⟨malformed_field_handling.1 initState badSkipLine 4000 "mc.0" 1 rfl,
   malformed_field_handling.2.2.2.2.2 initState badStatsLine 4000 "mc.0" 1 rfl⟩

/-! ## Evaluation helpers for the concrete fixtures -/

theorem naive_tok (s : Nat) : naive_timestamp 0 (tok s) = (s : ℚ) := by
  unfold naive_timestamp tok daysFromCivil
  norm_num

theorem extract_tok_ms (s : Nat) (line : Line) (h : line.tsTok = some (tok s)) :
    extract_timestamp 0 line = some ((s : ℚ) * 1000) := by
  simp only [extract_timestamp, h]
  rw [naive_tok]

theorem hts_idLine : extract_timestamp 0 idLine = some 1000 := by
  rw [extract_tok_ms 1 idLine rfl]
  norm_num

theorem hts_statsLine : extract_timestamp 0 statsLine = some 2000 := by
  rw [extract_tok_ms 2 statsLine rfl]
  norm_num

theorem hts_skipLine : extract_timestamp 0 skipLine = some 1000 := by
  rw [extract_tok_ms 1 skipLine rfl]
  norm_num

theorem hts_windowLine : extract_timestamp 0 windowLine = some 1000 := by
  rw [extract_tok_ms 1 windowLine rfl]
  norm_num

theorem hts_finalObsLine : extract_timestamp 0 finalObsLine = some 3000 := by
  rw [extract_tok_ms 3 finalObsLine rfl]
  norm_num

theorem hvg_idLine : extract_valgroup idLine = some "mc.0" := rfl

theorem hvg_statsLine : extract_valgroup statsLine = some "mc.0" := rfl

theorem hvg_skipLine : extract_valgroup skipLine = some "mc.0" := rfl

theorem hvg_windowLine : extract_valgroup windowLine = some "mc.0" := rfl

theorem hvg_finalObsLine : extract_valgroup finalObsLine = some "mc.0" := rfl

/-- Per-slot summary of a snapshot: (committee, slot, is_empty,
start-estimate) for each Slot record. -/
def slotSummary (d : ConsensusData) : List (String × Nat × Bool × ℚ) :=
  d.slots.map (fun sd => (sd.valgroup_id, sd.slot, sd.is_empty, sd.slot_start_est_ms))

/-! ## Start estimate (C3) -/

/-- Counterexample to C3 as stated: parsing an identity line, then a
`CollateStarted` target-reached line for slot 5 at t = 2000 ms, then a
skip-vote-certificate line for slot 5 at t = 1000 ms leaves
`start_estimate = 2000`, although the skip line mutated the slot (it set
`is_empty := true`) with timestamp 1000 < 2000 — so the final estimate is
not the minimum timestamp over all lines that created or mutated the
slot. -/
theorem start_estimate_skip_untouched_cex :
    (parse 0 [[idLine, statsLine, skipLine]]).map slotSummary =
      .ok [("mc.0", 5, true, 2000)] ∧
    extract_timestamp 0 skipLine = some 1000 ∧
    ¬ ((2000 : ℚ) ≤ 1000) := by
  refine ⟨?_, hts_skipLine, by norm_num⟩
  have hmc : "mc" ++ "." ++ toString (0 : Nat) = "mc.0" := rfl
  have hmc2 : "mc." ++ toString (0 : Nat) = "mc.0" := rfl
  simp [parse, parse_from, process_files, process_file, process_lines, process_line,
    extract_timestamp, extract_valgroup, parse_validator_info, process_log_line,
    parse_stats_target_reached, parse_skip_vote, parse_publish_event, alookup, aset,
    infer_slot_events, infer_blocks, infer_one, initState, idLine, statsLine, skipLine,
    blankLine, slotSummary, naive_tok, hmc, hmc2, min_self]
  norm_num [Except.map, slotSummary]

/-- C3 amended: `start_estimate_ms` is the timestamp of the line that
created the slot, thereafter lowered by `min` on every further
target-reached line for that slot; a skip-vote-certificate line touching
an existing slot leaves the estimate untouched (only a skip line that
itself creates the slot sets the estimate from its timestamp). -/
theorem start_estimate_update_rules :
    (∀ st line t g v target slot, line.statsTok = some (target, slot) →
      alookup (g, slot) st.slots = none →
      (alookup (g, slot) (parse_stats_target_reached st line t g v).slots).map
        SlotData.slot_start_est_ms = some t) ∧
    (∀ st line t g v target slot sd, line.statsTok = some (target, slot) →
      alookup (g, slot) st.slots = some sd →
      (alookup (g, slot) (parse_stats_target_reached st line t g v).slots).map
        SlotData.slot_start_est_ms = some (min t sd.slot_start_est_ms)) ∧
    (∀ st line t g v slot sd st2, line.slotTok = some slot →
      alookup (g, slot) st.slots = some sd →
      parse_skip_vote st line t g v = .ok st2 →
      (alookup (g, slot) st2.slots).map SlotData.slot_start_est_ms =
        some sd.slot_start_est_ms) ∧
    (∀ st line t g v slot st2, line.slotTok = some slot →
      alookup (g, slot) st.slots = none →
      parse_skip_vote st line t g v = .ok st2 →
      (alookup (g, slot) st2.slots).map SlotData.slot_start_est_ms = some t) := by
  refine ⟨?_, ?_, ?_, ?_⟩
  · intro st line t g v target slot h hnone
    simp only [parse_stats_target_reached, h, hnone, alookup_aset_self]
    repeat' split
    all_goals simp [alookup_aset_self]
  · intro st line t g v target slot sd h hsome
    simp only [parse_stats_target_reached, h, hsome, alookup_aset_self]
    repeat' split
    all_goals simp [alookup_aset_self]
  · intro st line t g v slot sd st2 h hsome hok
    simp only [parse_skip_vote, h, hsome] at hok
    cases hok
    simp [alookup_aset_self]
  · intro st line t g v slot st2 h hnone hok
    simp only [parse_skip_vote, h, hnone] at hok
    cases hok
    simp [alookup_aset_self]

/-- Witness for the amended C3 at a concrete state: a skip line touching
the existing slot leaves the 2000 ms estimate unchanged, and a
target-reached line on a fresh state sets the estimate from its own
timestamp. -/
theorem start_estimate_update_rules_witness :
    (alookup ("mc.0", 5)
        (parse_stats_target_reached initState statsLine 2000 "mc.0" 1).slots).map
      SlotData.slot_start_est_ms = some 2000 :=
  start_estimate_update_rules.1 initState statsLine 2000 "mc.0" 1 "CollateStarted" 5 rfl rfl

/-! ## FinalObserved by next leader (C9) -/

/-- C9.  On a `FinalObserved` target-reached line for slot `slot` acted by
validator `v`, when the leader tracker assigns `v` as leader of
`slot + 1` in the same committee, the parser appends exactly the derived
`finalize_observed_by_next_leader` event (kind `observed`, at the line's
timestamp) followed by the normal `finalize_observed` local event carrying
`v`. -/
theorem finalize_observed_by_next_leader_emitted :
    ∀ (st : ParserState) (line : Line) (t : ℚ) (g : String) (v : Nat) (slot : Nat),
      line.statsTok = some ("FinalObserved", slot) →
      alookup (g, slot + 1) st.slot_leaders = some v →
      (parse_stats_target_reached st line t g v).events =
        st.events ++
          [⟨g, slot, "finalize_observed_by_next_leader", "observed", t, none, none⟩,
           ⟨g, slot, "finalize_observed", "local", t, some v, none⟩] := by
  intro st line t g v slot h hld
  cases hsl : alookup (g, slot) st.slots with
  | none =>
    simp [parse_stats_target_reached, h, hld, hsl, TARGET_TO_LABEL, alookup,
      alookup_aset_self]
  | some sd =>
    simp [parse_stats_target_reached, h, hld, hsl, TARGET_TO_LABEL, alookup,
      alookup_aset_self]

/-- A state whose leader tracker assigns validator 1 as leader of slot 6
of committee `mc.0`. -/
def ldState : ParserState := ⟨[], [], [], [], [(("mc.0", 6), 1)], []⟩

/-- Witness for C9 at a concrete state and line. -/
theorem finalize_observed_by_next_leader_emitted_witness :
    (parse_stats_target_reached ldState finalObsLine 3000 "mc.0" 1).events =
      ldState.events ++
        [⟨"mc.0", 5, "finalize_observed_by_next_leader", "observed", 3000, none, none⟩,
         ⟨"mc.0", 5, "finalize_observed", "local", 3000, some 1, none⟩] :=
  finalize_observed_by_next_leader_emitted ldState finalObsLine 3000 "mc.0" 1 5 rfl rfl

/-! ## is_empty monotonicity (C7) -/

theorem stats_preserves_is_empty (st : ParserState) (line : Line) (t : ℚ)
    (g2 : String) (v : Nat) (g : String) (s : Nat)
    (h0 : (alookup (g, s) st.slots).map SlotData.is_empty = some true) :
    (alookup (g, s) (parse_stats_target_reached st line t g2 v).slots).map
      SlotData.is_empty = some true := by
  obtain ⟨sd, hsd, he⟩ : ∃ sd, alookup (g, s) st.slots = some sd ∧ sd.is_empty = true := by
    cases hl : alookup (g, s) st.slots with
    | none => rw [hl] at h0; simp at h0
    | some sd =>
      rw [hl] at h0
      simp only [Option.map_some', Option.some.injEq] at h0
      exact ⟨sd, rfl, h0⟩
  cases h : line.statsTok with
  | none => simp [parse_stats_target_reached, h, hsd, he]
  | some ts =>
    obtain ⟨target, slot⟩ := ts
    by_cases hk : ((g2, slot) : slot_id_type) = (g, s)
    · injection hk with hg hs
      subst hg
      subst hs
      simp only [parse_stats_target_reached, h, hsd, alookup_aset_self]
      repeat' split
      all_goals try subst_eqs
      all_goals simp_all [alookup_aset_self]
    · simp only [parse_stats_target_reached, h]
      repeat' split
      all_goals try subst_eqs
      all_goals try (rename_i heq2; cases heq2)
      all_goals simp_all [alookup_aset_ne hk, alookup_aset_self]

theorem skip_preserves_is_empty (st : ParserState) (line : Line) (t : ℚ)
    (g2 : String) (v : Nat) (g : String) (s : Nat) (st2 : ParserState)
    (h0 : (alookup (g, s) st.slots).map SlotData.is_empty = some true)
    (hok : parse_skip_vote st line t g2 v = .ok st2) :
    (alookup (g, s) st2.slots).map SlotData.is_empty = some true := by
  obtain ⟨sd, hsd, he⟩ : ∃ sd, alookup (g, s) st.slots = some sd ∧ sd.is_empty = true := by
    cases hl : alookup (g, s) st.slots with
    | none => rw [hl] at h0; simp at h0
    | some sd =>
      rw [hl] at h0
      simp only [Option.map_some', Option.some.injEq] at h0
      exact ⟨sd, rfl, h0⟩
  cases h : line.slotTok with
  | none => simp [parse_skip_vote, h] at hok
  | some slot =>
    by_cases hk : ((g2, slot) : slot_id_type) = (g, s)
    · injection hk with hg hs
      subst hg
      subst hs
      simp only [parse_skip_vote, h, hsd] at hok
      cases hok
      simp [alookup_aset_self]
    · simp only [parse_skip_vote, h] at hok
      split at hok
      · cases hok
        simp [alookup_aset_ne hk, hsd, he]
      · cases hok
        simp [alookup_aset_ne hk, hsd, he]

theorem publish_slots_eq (st : ParserState) (line : Line) (t : ℚ) (g2 : String)
    (v : Nat) (vw : List (String × Nat)) (st2 : ParserState)
    (hok : parse_publish_event st line t g2 v vw = .ok st2) : st2.slots = st.slots := by
  simp only [parse_publish_event] at hok
  repeat' split at hok
  all_goals cases hok
  all_goals rfl

theorem process_line_preserves_is_empty (off : Int) (st : ParserState)
    (reg : FileRegistry) (line : Line) (st2 : ParserState) (reg2 : FileRegistry)
    (g : String) (s : Nat)
    (h0 : (alookup (g, s) st.slots).map SlotData.is_empty = some true)
    (hok : process_line off st reg line = .ok (st2, reg2)) :
    (alookup (g, s) st2.slots).map SlotData.is_empty = some true := by
  unfold process_line at hok
  cases hts : extract_timestamp off line with
  | none => simp only [hts] at hok; cases hok; exact h0
  | some t =>
    simp only [hts] at hok
    cases hvg : extract_valgroup line with
    | none => simp only [hvg] at hok; cases hok; exact h0
    | some vg =>
      simp only [hvg] at hok
      cases hvi : parse_validator_info line vg reg st.total_weights with
      | error e => simp only [hvi] at hok; cases hok
      | ok p =>
        obtain ⟨reg3, tw⟩ := p
        simp only [hvi] at hok
        cases hpll : process_log_line { st with total_weights := tw } line vg t reg3 with
        | error e => simp only [hpll] at hok; cases hok
        | ok st3 =>
          simp only [hpll] at hok
          have hinj := Except.ok.inj hok
          have hst : st3 = st2 := congrArg Prod.fst hinj
          have hrg : reg3 = reg2 := congrArg Prod.snd hinj
          subst hst
          subst hrg
          have h0s : (alookup (g, s)
              ({ st with total_weights := tw } : ParserState).slots).map
              SlotData.is_empty = some true := h0
          unfold process_log_line at hpll
          cases hvid : alookup vg reg3.v_groups with
          | none => rw [hvid] at hpll; cases hpll; exact h0s
          | some vid =>
            rw [hvid] at hpll
            by_cases hsr : line.hasStatsTargetReached = true
            · simp only [hsr, if_true] at hpll
              cases hpll
              exact stats_preserves_is_empty _ _ _ _ _ _ _ h0s
            · simp only [hsr, if_false, Bool.false_eq_true] at hpll
              by_cases hsc : line.hasSkipCert = true
              · simp only [hsc, if_true] at hpll
                exact skip_preserves_is_empty _ _ _ _ _ _ _ _ h0s hpll
              · simp only [hsc, if_false, Bool.false_eq_true] at hpll
                by_cases hpe : line.hasPublishedEvent = true
                · simp only [hpe, if_true] at hpll
                  rw [publish_slots_eq _ _ _ _ _ _ _ hpll]
                  exact h0s
                · simp only [hpe, if_false, Bool.false_eq_true] at hpll
                  cases hpll
                  exact h0s

theorem process_lines_preserves_is_empty (off : Int) :
    ∀ (lines : List Line) (st : ParserState) (reg : FileRegistry) (st2 : ParserState)
      (g : String) (s : Nat),
      (alookup (g, s) st.slots).map SlotData.is_empty = some true →
      process_lines off st reg lines = .ok st2 →
      (alookup (g, s) st2.slots).map SlotData.is_empty = some true := by
  intro lines
  induction lines with
  | nil =>
    intro st reg st2 g s h0 hok
    cases hok
    exact h0
  | cons l rest ih =>
    intro st reg st2 g s h0 hok
    simp only [process_lines] at hok
    cases hpl : process_line off st reg l with
    | error e => rw [hpl] at hok; cases hok
    | ok p =>
      obtain ⟨st3, reg3⟩ := p
      rw [hpl] at hok
      exact ih st3 reg3 st2 g s
        (process_line_preserves_is_empty off st reg l st3 reg3 g s h0 hpl) hok

theorem process_files_preserves_is_empty (off : Int) :
    ∀ (files : List (List Line)) (st : ParserState) (st2 : ParserState)
      (g : String) (s : Nat),
      (alookup (g, s) st.slots).map SlotData.is_empty = some true →
      process_files off st files = .ok st2 →
      (alookup (g, s) st2.slots).map SlotData.is_empty = some true := by
  intro files
  induction files with
  | nil =>
    intro st st2 g s h0 hok
    cases hok
    exact h0
  | cons f rest ih =>
    intro st st2 g s h0 hok
    simp only [process_files, process_file] at hok
    cases hpf : process_lines off st ⟨[], []⟩ f with
    | error e => rw [hpf] at hok; cases hok
    | ok st3 =>
      rw [hpf] at hok
      exact ih st3 st2 g s (process_lines_preserves_is_empty off f st _ st3 g s h0 hpf) hok

theorem infer_slots_eq (st st2 : ParserState) (hok : infer_slot_events st = .ok st2) :
    st2.slots = st.slots := by
  simp only [infer_slot_events] at hok
  split at hok
  · cases hok
  · cases hok
    rfl

/-- C7.  `is_empty` is monotone: whenever the slot record for
`(g, s)` has `is_empty = true` in some intermediate parser state, then
after processing any further lines of the current file, any further
files, and the inference pass, the record still has `is_empty = true`,
and that record is among the Slot values handed out in the final
snapshot (`parse_from` returns `st.slots.map Prod.snd`). -/
theorem is_empty_monotone :
    ∀ (off : Int) (st : ParserState) (reg : FileRegistry) (lines : List Line)
      (files : List (List Line)) (g : String) (s : Nat),
      (alookup (g, s) st.slots).map SlotData.is_empty = some true →
      ∀ st2 st3 st4, process_lines off st reg lines = .ok st2 →
        process_files off st2 files = .ok st3 →
        infer_slot_events st3 = .ok st4 →
        (alookup (g, s) st4.slots).map SlotData.is_empty = some true ∧
        ∃ sd, alookup (g, s) st4.slots = some sd ∧ sd.is_empty = true ∧
          sd ∈ st4.slots.map Prod.snd := by
  intro off st reg lines files g s h0 st2 st3 st4 h1 h2 h3
  have h4 : (alookup (g, s) st3.slots).map SlotData.is_empty = some true :=
    process_files_preserves_is_empty off files st2 st3 g s
      (process_lines_preserves_is_empty off lines st reg st2 g s h0 h1) h2
  rw [infer_slots_eq st3 st4 h3]
  refine ⟨h4, ?_⟩
  cases hl : alookup (g, s) st3.slots with
  | none => rw [hl] at h4; simp at h4
  | some sd =>
    rw [hl] at h4
    simp only [Option.map_some', Option.some.injEq] at h4
    exact ⟨sd, rfl, h4, List.mem_map_of_mem Prod.snd (mem_of_alookup_eq_some hl)⟩

/-- State with `is_empty = true` for slot `("mc.0", 5)` and a registered
total weight for the committee. -/
def emptySlotState : ParserState :=
  ⟨[(("mc.0", 5), ⟨"mc.0", 5, true, 0, none, none⟩)], [], [], [("mc.0", 10)], [], []⟩

/-- Witness for C7: from `emptySlotState`, processing no further lines and
no further files and running inference keeps `is_empty = true`. -/
theorem is_empty_monotone_witness :
    (alookup ("mc.0", 5)
        (ParserState.mk [(("mc.0", 5), ⟨"mc.0", 5, true, 0, none, none⟩)] [] []
          [("mc.0", 10)] []
          [⟨"mc.0", 5, "slot_start_est", "estimate", 0, none, none⟩]).slots).map
      SlotData.is_empty = some true ∧
    ∃ sd, alookup ("mc.0", 5)
        (ParserState.mk [(("mc.0", 5), ⟨"mc.0", 5, true, 0, none, none⟩)] [] []
          [("mc.0", 10)] []
          [⟨"mc.0", 5, "slot_start_est", "estimate", 0, none, none⟩]).slots = some sd ∧
      sd.is_empty = true ∧
      sd ∈ (ParserState.mk [(("mc.0", 5), ⟨"mc.0", 5, true, 0, none, none⟩)] [] []
          [("mc.0", 10)] []
          [⟨"mc.0", 5, "slot_start_est", "estimate", 0, none, none⟩]).slots.map Prod.snd :=
  is_empty_monotone 0 emptySlotState ⟨[], []⟩ [] [] "mc.0" 5 rfl _ _ _ rfl rfl rfl

/-! ## Safety of the inference pass's total-weight lookup (C10) -/

/-- Every slot's committee has a registered total weight. -/
def slotsWeightInv (slots : List (slot_id_type × SlotData))
    (tw : List (String × Nat)) : Prop :=
  ∀ p ∈ slots, ∃ w, alookup p.1.1 tw = some w

/-- Every committee registered in the per-file registry has a total
weight. -/
def regWeightInv (vgs : List (String × Nat)) (tw : List (String × Nat)) : Prop :=
  ∀ q ∈ vgs, ∃ w, alookup q.1 tw = some w

theorem alookup_domain_mono {α β : Type} [DecidableEq α] {k : α} {l : List (α × β)}
    (k2 : α) (v : β) (h : ∃ w, alookup k l = some w) :
    ∃ w, alookup k (aset k2 v l) = some w := by
  by_cases hk : k2 = k
  · subst hk
    exact ⟨v, alookup_aset_self _ _ _⟩
  · obtain ⟨w, hw⟩ := h
    exact ⟨w, by rw [alookup_aset_ne hk]; exact hw⟩

theorem validator_info_weight (line : Line) (vg : String) (reg reg2 : FileRegistry)
    (tw tw2 : List (String × Nat))
    (hok : parse_validator_info line vg reg tw = .ok (reg2, tw2))
    (hR : regWeightInv reg.v_groups tw) :
    regWeightInv reg2.v_groups tw2 ∧
      (∀ k, (∃ w, alookup k tw = some w) → (∃ w, alookup k tw2 = some w)) := by
  simp only [parse_validator_info] at hok
  split at hok
  · cases hok
    exact ⟨hR, fun k h => h⟩
  · repeat' split at hok
    all_goals cases hok
    constructor
    · intro q hq
      rcases mem_aset hq with h1 | h1
      · subst h1
        exact ⟨_, alookup_aset_self _ _ _⟩
      · exact alookup_domain_mono _ _ (hR q h1)
    · intro k h
      exact alookup_domain_mono _ _ h

theorem stats_total_weights_eq (st : ParserState) (line : Line) (t : ℚ)
    (vg : String) (v : Nat) :
    (parse_stats_target_reached st line t vg v).total_weights = st.total_weights := by
  cases h : line.statsTok with
  | none => simp [parse_stats_target_reached, h]
  | some p =>
    obtain ⟨target, slot⟩ := p
    simp only [parse_stats_target_reached, h]
    repeat' split
    all_goals rfl

theorem stats_slots_mem (st : ParserState) (line : Line) (t : ℚ) (vg : String)
    (v : Nat) (p : slot_id_type × SlotData)
    (hp : p ∈ (parse_stats_target_reached st line t vg v).slots) :
    p ∈ st.slots ∨ p.1.1 = vg := by
  cases h : line.statsTok with
  | none =>
    simp only [parse_stats_target_reached, h] at hp
    exact Or.inl hp
  | some q =>
    obtain ⟨target, slot⟩ := q
    simp only [parse_stats_target_reached, h] at hp
    revert hp
    repeat' split
    all_goals intro hp
    all_goals try simp only [aset_aset] at hp
    all_goals first
      | exact Or.inl hp
      | (rcases mem_aset hp with h1 | h1
         · exact Or.inr (by rw [h1])
         · exact Or.inl h1)

theorem skip_state_shape (st : ParserState) (line : Line) (t : ℚ) (vg : String)
    (v : Nat) (st2 : ParserState)
    (hok : parse_skip_vote st line t vg v = .ok st2) :
    st2.total_weights = st.total_weights ∧
      ∀ p ∈ st2.slots, p ∈ st.slots ∨ p.1.1 = vg := by
  cases h : line.slotTok with
  | none => simp [parse_skip_vote, h] at hok
  | some slot =>
    simp only [parse_skip_vote, h] at hok
    split at hok
    all_goals cases hok
    all_goals refine ⟨rfl, ?_⟩
    all_goals intro p hp
    all_goals rcases mem_aset hp with h1 | h1
    · exact Or.inr (by rw [h1])
    · exact Or.inl h1
    · exact Or.inr (by rw [h1])
    · exact Or.inl h1

theorem publish_state_shape (st : ParserState) (line : Line) (t : ℚ) (vg : String)
    (v : Nat) (vw : List (String × Nat)) (st2 : ParserState)
    (hok : parse_publish_event st line t vg v vw = .ok st2) :
    st2.total_weights = st.total_weights ∧ st2.slots = st.slots := by
  simp only [parse_publish_event] at hok
  repeat' split at hok
  all_goals cases hok
  all_goals exact ⟨rfl, rfl⟩

theorem process_log_line_weight (st : ParserState) (line : Line) (vg : String)
    (t : ℚ) (reg : FileRegistry) (st2 : ParserState)
    (hok : process_log_line st line vg t reg = .ok st2)
    (hS : slotsWeightInv st.slots st.total_weights)
    (hR : regWeightInv reg.v_groups st.total_weights) :
    slotsWeightInv st2.slots st2.total_weights ∧
      st2.total_weights = st.total_weights := by
  unfold process_log_line at hok
  cases hvid : alookup vg reg.v_groups with
  | none =>
    rw [hvid] at hok
    cases hok
    exact ⟨hS, rfl⟩
  | some vid =>
    rw [hvid] at hok
    have hvgw : ∃ w, alookup vg st.total_weights = some w :=
      hR (vg, vid) (mem_of_alookup_eq_some hvid)
    by_cases hsr : line.hasStatsTargetReached = true
    · simp only [hsr, if_true] at hok
      cases hok
      rw [stats_total_weights_eq]
      refine ⟨?_, rfl⟩
      intro p hp
      rcases stats_slots_mem st line t vg vid p hp with h1 | h1
      · exact hS p h1
      · rw [h1]
        exact hvgw
    · simp only [hsr, if_false, Bool.false_eq_true] at hok
      by_cases hsc : line.hasSkipCert = true
      · simp only [hsc, if_true] at hok
        obtain ⟨htw, hmem⟩ := skip_state_shape st line t vg vid st2 hok
        rw [htw]
        refine ⟨?_, rfl⟩
        intro p hp
        rcases hmem p hp with h1 | h1
        · exact hS p h1
        · rw [h1]
          exact hvgw
      · simp only [hsc, if_false, Bool.false_eq_true] at hok
        by_cases hpe : line.hasPublishedEvent = true
        · simp only [hpe, if_true] at hok
          obtain ⟨htw, hsl⟩ := publish_state_shape st line t vg vid reg.v_weights st2 hok
          rw [htw, hsl]
          exact ⟨hS, rfl⟩
        · simp only [hpe, if_false, Bool.false_eq_true] at hok
          cases hok
          exact ⟨hS, rfl⟩

theorem process_line_weight (off : Int) (st : ParserState) (reg : FileRegistry)
    (line : Line) (st2 : ParserState) (reg2 : FileRegistry)
    (hok : process_line off st reg line = .ok (st2, reg2))
    (hS : slotsWeightInv st.slots st.total_weights)
    (hR : regWeightInv reg.v_groups st.total_weights) :
    slotsWeightInv st2.slots st2.total_weights ∧
      regWeightInv reg2.v_groups st2.total_weights := by
  unfold process_line at hok
  cases hts : extract_timestamp off line with
  | none =>
    simp only [hts] at hok
    cases hok
    exact ⟨hS, hR⟩
  | some t =>
    simp only [hts] at hok
    cases hvg : extract_valgroup line with
    | none =>
      simp only [hvg] at hok
      cases hok
      exact ⟨hS, hR⟩
    | some vg =>
      simp only [hvg] at hok
      cases hvi : parse_validator_info line vg reg st.total_weights with
      | error e => simp only [hvi] at hok; cases hok
      | ok p =>
        obtain ⟨reg3, tw⟩ := p
        simp only [hvi] at hok
        obtain ⟨hR3, hmono⟩ := validator_info_weight line vg reg reg3
          st.total_weights tw hvi hR
        cases hpll : process_log_line { st with total_weights := tw } line vg t reg3 with
        | error e => simp only [hpll] at hok; cases hok
        | ok st3 =>
          simp only [hpll] at hok
          have hinj := Except.ok.inj hok
          have hst : st3 = st2 := congrArg Prod.fst hinj
          have hrg : reg3 = reg2 := congrArg Prod.snd hinj
          subst hst
          subst hrg
          have hS3 : slotsWeightInv st.slots tw := fun p hp => hmono _ (hS p hp)
          obtain ⟨hS4, htw4⟩ := process_log_line_weight _ line vg t reg3 st3 hpll hS3 hR3
          refine ⟨hS4, ?_⟩
          rw [htw4]
          exact hR3

theorem process_lines_weight (off : Int) :
    ∀ (lines : List Line) (st : ParserState) (reg : FileRegistry) (st2 : ParserState),
      process_lines off st reg lines = .ok st2 →
      slotsWeightInv st.slots st.total_weights →
      regWeightInv reg.v_groups st.total_weights →
      slotsWeightInv st2.slots st2.total_weights := by
  intro lines
  induction lines with
  | nil =>
    intro st reg st2 hok hS hR
    cases hok
    exact hS
  | cons l rest ih =>
    intro st reg st2 hok hS hR
    simp only [process_lines] at hok
    cases hpl : process_line off st reg l with
    | error e => rw [hpl] at hok; cases hok
    | ok p =>
      obtain ⟨st3, reg3⟩ := p
      rw [hpl] at hok
      obtain ⟨hS3, hR3⟩ := process_line_weight off st reg l st3 reg3 hpl hS hR
      exact ih st3 reg3 st2 hok hS3 hR3

theorem process_lines_reg_weight (off : Int) :
    ∀ (lines : List Line) (st : ParserState) (reg : FileRegistry) (st2 : ParserState),
      process_lines off st reg lines = .ok st2 →
      slotsWeightInv st.slots st.total_weights →
      regWeightInv reg.v_groups st.total_weights →
      slotsWeightInv st2.slots st2.total_weights := process_lines_weight off

theorem process_files_weight (off : Int) :
    ∀ (files : List (List Line)) (st : ParserState) (st2 : ParserState),
      process_files off st files = .ok st2 →
      slotsWeightInv st.slots st.total_weights →
      slotsWeightInv st2.slots st2.total_weights := by
  intro files
  induction files with
  | nil =>
    intro st st2 hok hS
    cases hok
    exact hS
  | cons f rest ih =>
    intro st st2 hok hS
    simp only [process_files, process_file] at hok
    cases hpf : process_lines off st ⟨[], []⟩ f with
    | error e => rw [hpf] at hok; cases hok
    | ok st3 =>
      rw [hpf] at hok
      have hR0 : regWeightInv (⟨[], []⟩ : FileRegistry).v_groups st.total_weights := by
        intro q hq
        cases hq
      exact ih st3 st2 hok (process_lines_weight off f st _ st3 hpf hS hR0)

theorem infer_blocks_ok (collated : List (slot_id_type × List (String × EventData)))
    (votes : List (slot_id_type × List (String × List VoteData)))
    (tw : List (String × Nat)) :
    ∀ (slots : List (slot_id_type × SlotData)),
      (∀ p ∈ slots, ∃ w, alookup p.1.1 tw = some w) →
      ∃ evs, infer_blocks collated votes tw slots = .ok evs := by
  intro slots
  induction slots with
  | nil => exact fun _ => ⟨[], rfl⟩
  | cons p rest ih =>
    intro h
    obtain ⟨w, hw⟩ := h p (List.mem_cons_self p rest)
    obtain ⟨evs, hevs⟩ := ih fun q hq => h q (List.mem_cons_of_mem p hq)
    have hone : ∃ b, infer_one collated votes tw p = .ok b := by
      simp only [infer_one, hw]
      exact ⟨_, rfl⟩
    obtain ⟨b, hb⟩ := hone
    exact ⟨b ++ evs, by simp only [infer_blocks, hb, hevs]⟩

/-- C10.  If the per-line phase of `parse` (from a fresh parser) succeeds,
the inference pass's unguarded `total_weights[slot_id[0]]` lookup succeeds
for every slot, so the inference pass and hence the whole `parse` cannot
fail there: every slot is created only for a line whose committee has a
registered validator identity in that file, and identity registration
always records the committee's total weight as well. -/
theorem infer_total_weight_lookup_safe :
    ∀ (off : Int) (files : List (List Line)) (st : ParserState),
      process_files off initState files = .ok st →
      ∃ st2, infer_slot_events st = .ok st2 ∧
        parse off files = .ok ⟨st2.slots.map Prod.snd, st2.events⟩ := by
  intro off files st hok
  have hS0 : slotsWeightInv initState.slots initState.total_weights := by
    intro p hp
    cases hp
  have hS := process_files_weight off files initState st hok hS0
  obtain ⟨evs, hevs⟩ := infer_blocks_ok st.collated st.votes st.total_weights st.slots hS
  refine ⟨{ st with events := (st.events ++ evs) }, ?_, ?_⟩
  · simp only [infer_slot_events, hevs]
  · simp only [parse, parse_from, hok, infer_slot_events, hevs]

/-- Witness for C10: parsing the single identity-registration file
succeeds, and inference on the resulting state succeeds. -/
theorem infer_total_weight_lookup_safe_witness :
    ∃ st2, infer_slot_events ⟨[], [], [], [("mc.0", 10)], [], []⟩ = .ok st2 ∧
      parse 0 [[idLine]] = .ok ⟨st2.slots.map Prod.snd, st2.events⟩ :=
  infer_total_weight_lookup_safe 0 [[idLine]] ⟨[], [], [], [("mc.0", 10)], [], []⟩ rfl

/-! ## Causal chain collate → notarize → finalize (C5) -/

/-- Some event with the given committee, slot, label and kind occurs in the
list. -/
def hasEvent (evs : List EventData) (g : String) (s : Nat) (label kind : String) : Prop :=
  ∃ e ∈ evs, e.valgroup_id = g ∧ e.slot = s ∧ e.label = label ∧ e.kind = kind

theorem hasEvent_mono {evs tail : List EventData} {g : String} {s : Nat}
    {label kind : String} (h : hasEvent evs g s label kind) :
    hasEvent (evs ++ tail) g s label kind := by
  obtain ⟨e, he, hf⟩ := h
  exact ⟨e, List.mem_append.mpr (Or.inl he), hf⟩

/-- Every collation marker recorded in `collated` corresponds to a local
event for the same (committee, slot) and label. -/
def collatedEvInv (st : ParserState) : Prop :=
  ∀ sid m, alookup sid st.collated = some m →
    ∀ lab ev, alookup lab m = some ev → hasEvent st.events sid.1 sid.2 lab "local"

/-- Before the inference pass, every event has kind `local` or
`observed` (in particular, no `phase` event exists yet). -/
def eventsKindInv (st : ParserState) : Prop :=
  ∀ e ∈ st.events, e.kind = "local" ∨ e.kind = "observed"

/-- Slot records carry their own key. -/
def slotsKeyInv (st : ParserState) : Prop :=
  ∀ p ∈ st.slots, p.2.valgroup_id = p.1.1 ∧ p.2.slot = p.1.2

theorem mem_append_cases {e : EventData} {a tail : List EventData} (P : EventData → Prop)
    (he : e ∈ a ++ tail) (h2 : ∀ x ∈ tail, P x) : e ∈ a ∨ P e := by
  rcases List.mem_append.mp he with h | h
  · exact Or.inl h
  · exact Or.inr (h2 e h)

/-- The slot map of `_parse_stats_target_reached` after a matched line is a
single keyed update at `(vg, slot)` with a correctly-keyed record. -/
theorem stats_slots_shape (st : ParserState) (line : Line) (t : ℚ) (vg : String)
    (v : Nat) (target : String) (slot : Nat)
    (h : line.statsTok = some (target, slot)) (hC : slotsKeyInv st) :
    ∃ val : SlotData, (parse_stats_target_reached st line t vg v).slots =
      aset (vg, slot) val st.slots ∧ val.valgroup_id = vg ∧ val.slot = slot := by
  cases hl : alookup ((vg, slot) : slot_id_type) st.slots with
  | none =>
    simp only [parse_stats_target_reached, h, hl, alookup_aset_self, aset_aset]
    repeat' split
    all_goals exact ⟨_, rfl, rfl, rfl⟩
  | some sd =>
    obtain ⟨hg, hs⟩ := hC ((vg, slot), sd) (mem_of_alookup_eq_some hl)
    simp only [parse_stats_target_reached, h, hl, alookup_aset_self, aset_aset]
    repeat' split
    all_goals exact ⟨_, rfl, hg, hs⟩

/-- The events of `_parse_stats_target_reached` extend the previous events
with events for `(vg, slot)` of kind `local` or `observed` only. -/
theorem stats_events_shape (st : ParserState) (line : Line) (t : ℚ) (vg : String)
    (v : Nat) :
    ∃ tail, (parse_stats_target_reached st line t vg v).events = st.events ++ tail ∧
      ∀ e ∈ tail, e.kind = "local" ∨ e.kind = "observed" := by
  cases h : line.statsTok with
  | none =>
    exact ⟨[], by simp [parse_stats_target_reached, h],
      fun e he => absurd he (List.not_mem_nil e)⟩
  | some q =>
    obtain ⟨target, slot⟩ := q
    cases hl : alookup ((vg, slot) : slot_id_type) st.slots with
    | none =>
      simp only [parse_stats_target_reached, h, hl, alookup_aset_self, aset_aset]
      repeat' split
      all_goals simp only [List.append_assoc]
      all_goals first
        | exact ⟨[], (List.append_nil st.events).symm, fun e he =>
            absurd he (List.not_mem_nil e)⟩
        | refine ⟨_, rfl, fun e he => ?_⟩
      all_goals simp only [List.mem_append, List.mem_cons, List.not_mem_nil,
        or_false] at he
      all_goals first
        | (rcases he with rfl | rfl
           · simp
           · simp)
        | (rcases he with rfl
           simp)
    | some sd =>
      simp only [parse_stats_target_reached, h, hl, alookup_aset_self, aset_aset]
      repeat' split
      all_goals simp only [List.append_assoc]
      all_goals first
        | exact ⟨[], (List.append_nil st.events).symm, fun e he =>
            absurd he (List.not_mem_nil e)⟩
        | refine ⟨_, rfl, fun e he => ?_⟩
      all_goals simp only [List.mem_append, List.mem_cons, List.not_mem_nil,
        or_false] at he
      all_goals first
        | (rcases he with rfl | rfl
           · simp
           · simp)
        | (rcases he with rfl
           simp)

/-- The collation-marker map of `_parse_stats_target_reached` is either
untouched or updated at `(vg, slot)` with the just-emitted local event. -/
theorem stats_collated_shape (st : ParserState) (line : Line) (t : ℚ) (vg : String)
    (v : Nat) (target : String) (slot : Nat)
    (h : line.statsTok = some (target, slot)) :
    (parse_stats_target_reached st line t vg v).collated = st.collated ∨
    ∃ label, (parse_stats_target_reached st line t vg v).collated =
        aset (vg, slot)
          (aset label (⟨vg, slot, label, "local", t, some v, none⟩ : EventData)
            ((alookup ((vg, slot) : slot_id_type) st.collated).getD []))
          st.collated ∧
      (⟨vg, slot, label, "local", t, some v, none⟩ : EventData) ∈
        (parse_stats_target_reached st line t vg v).events := by
  cases hl : alookup ((vg, slot) : slot_id_type) st.slots with
  | none =>
    simp only [parse_stats_target_reached, h, hl, alookup_aset_self, aset_aset]
    repeat' split
    all_goals first
      | exact Or.inl rfl
      | exact Or.inr ⟨_, rfl, by simp⟩
  | some sd =>
    simp only [parse_stats_target_reached, h, hl, alookup_aset_self, aset_aset]
    repeat' split
    all_goals first
      | exact Or.inl rfl
      | exact Or.inr ⟨_, rfl, by simp⟩

/-- The three pre-inference invariants bundled. -/
def ParserInv (st : ParserState) : Prop :=
  collatedEvInv st ∧ eventsKindInv st ∧ slotsKeyInv st

theorem stats_preserves_inv (st : ParserState) (line : Line) (t : ℚ) (vg : String)
    (v : Nat) (hI : ParserInv st) :
    ParserInv (parse_stats_target_reached st line t vg v) := by
  obtain ⟨hA, hB, hC⟩ := hI
  cases h : line.statsTok with
  | none =>
    have hR : parse_stats_target_reached st line t vg v = st := by
      simp [parse_stats_target_reached, h]
    rw [hR]
    exact ⟨hA, hB, hC⟩
  | some q =>
    obtain ⟨target, slot⟩ := q
    obtain ⟨val, hslots, hvg2, hvs2⟩ := stats_slots_shape st line t vg v target slot h hC
    obtain ⟨tail, hevs, htail⟩ := stats_events_shape st line t vg v
    have hcol := stats_collated_shape st line t vg v target slot h
    refine ⟨?_, ?_, ?_⟩
    · intro sid m hm lab ev hev
      rcases hcol with hcol | ⟨label, hcol, hmem⟩
      · rw [hcol] at hm
        rw [hevs]
        exact hasEvent_mono (hA sid m hm lab ev hev)
      · rw [hcol] at hm
        by_cases hsid : sid = ((vg, slot) : slot_id_type)
        · subst hsid
          rw [alookup_aset_self] at hm
          replace hm := Option.some.inj hm
          by_cases hlab : lab = label
          · subst hlab
            exact ⟨_, hmem, rfl, rfl, rfl, rfl⟩
          · rw [← hm] at hev
            rw [alookup_aset_ne (fun hh : label = lab => hlab hh.symm)] at hev
            cases hi : alookup ((vg, slot) : slot_id_type) st.collated with
            | none =>
              rw [hi] at hev
              simp [alookup] at hev
            | some m0 =>
              rw [hi] at hev
              rw [hevs]
              exact hasEvent_mono (hA (vg, slot) m0 hi lab ev hev)
        · rw [alookup_aset_ne (Ne.symm hsid)] at hm
          rw [hevs]
          exact hasEvent_mono (hA sid m hm lab ev hev)
    · intro e he
      rw [hevs] at he
      rcases List.mem_append.mp he with he | he
      · exact hB e he
      · exact htail e he
    · intro p hp
      rw [hslots] at hp
      rcases mem_aset hp with rfl | hp
      · exact ⟨hvg2, hvs2⟩
      · exact hC p hp

theorem ParserInv_of_fields_eq (st st2 : ParserState)
    (hs : st2.slots = st.slots) (hc : st2.collated = st.collated)
    (he : st2.events = st.events) (hI : ParserInv st) : ParserInv st2 := by
  obtain ⟨hA, hB, hC⟩ := hI
  refine ⟨?_, ?_, ?_⟩
  · intro sid m hm lab ev hev
    rw [hc] at hm
    rw [he]
    exact hA sid m hm lab ev hev
  · intro e hee
    rw [he] at hee
    exact hB e hee
  · intro p hp
    rw [hs] at hp
    exact hC p hp

theorem skip_preserves_inv (st : ParserState) (line : Line) (t : ℚ) (vg : String)
    (v : Nat) (st2 : ParserState)
    (hok : parse_skip_vote st line t vg v = .ok st2) (hI : ParserInv st) :
    ParserInv st2 := by
  obtain ⟨hA, hB, hC⟩ := hI
  cases h : line.slotTok with
  | none => simp [parse_skip_vote, h] at hok
  | some slot =>
    simp only [parse_skip_vote, h] at hok
    cases hl : alookup ((vg, slot) : slot_id_type) st.slots with
    | none =>
      simp only [hl] at hok
      cases hok
      refine ⟨?_, ?_, ?_⟩
      · intro sid m hm lab ev hev
        exact hasEvent_mono (hA sid m hm lab ev hev)
      · intro e he
        rcases List.mem_append.mp he with he | he
        · exact hB e he
        · simp only [List.mem_cons, List.not_mem_nil, or_false] at he
          subst he
          exact Or.inl rfl
      · intro p hp
        rcases mem_aset hp with rfl | hp
        · exact ⟨rfl, rfl⟩
        · exact hC p hp
    | some sd =>
      simp only [hl] at hok
      cases hok
      obtain ⟨hg, hs⟩ := hC ((vg, slot), sd) (mem_of_alookup_eq_some hl)
      refine ⟨?_, ?_, ?_⟩
      · intro sid m hm lab ev hev
        exact hasEvent_mono (hA sid m hm lab ev hev)
      · intro e he
        rcases List.mem_append.mp he with he | he
        · exact hB e he
        · simp only [List.mem_cons, List.not_mem_nil, or_false] at he
          subst he
          exact Or.inl rfl
      · intro p hp
        rcases mem_aset hp with rfl | hp
        · exact ⟨hg, hs⟩
        · exact hC p hp

theorem publish_fields_eq (st : ParserState) (line : Line) (t : ℚ) (vg : String)
    (v : Nat) (vw : List (String × Nat)) (st2 : ParserState)
    (hok : parse_publish_event st line t vg v vw = .ok st2) :
    st2.slots = st.slots ∧ st2.collated = st.collated ∧ st2.events = st.events := by
  simp only [parse_publish_event] at hok
  repeat' split at hok
  all_goals cases hok
  all_goals exact ⟨rfl, rfl, rfl⟩

theorem process_line_preserves_inv (off : Int) (st : ParserState)
    (reg : FileRegistry) (line : Line) (st2 : ParserState) (reg2 : FileRegistry)
    (hok : process_line off st reg line = .ok (st2, reg2)) (hI : ParserInv st) :
    ParserInv st2 := by
  unfold process_line at hok
  cases hts : extract_timestamp off line with
  | none => simp only [hts] at hok; cases hok; exact hI
  | some t =>
    simp only [hts] at hok
    cases hvg : extract_valgroup line with
    | none => simp only [hvg] at hok; cases hok; exact hI
    | some vg =>
      simp only [hvg] at hok
      cases hvi : parse_validator_info line vg reg st.total_weights with
      | error e => simp only [hvi] at hok; cases hok
      | ok p =>
        obtain ⟨reg3, tw⟩ := p
        simp only [hvi] at hok
        cases hpll : process_log_line { st with total_weights := tw } line vg t reg3 with
        | error e => simp only [hpll] at hok; cases hok
        | ok st3 =>
          simp only [hpll] at hok
          have hinj := Except.ok.inj hok
          have hst : st3 = st2 := congrArg Prod.fst hinj
          subst hst
          have hIs : ParserInv ({ st with total_weights := tw } : ParserState) :=
            ParserInv_of_fields_eq _ _ rfl rfl rfl hI
          unfold process_log_line at hpll
          cases hvid : alookup vg reg3.v_groups with
          | none => rw [hvid] at hpll; cases hpll; exact hIs
          | some vid =>
            rw [hvid] at hpll
            by_cases hsr : line.hasStatsTargetReached = true
            · simp only [hsr, if_true] at hpll
              cases hpll
              exact stats_preserves_inv _ _ _ _ _ hIs
            · simp only [hsr, if_false, Bool.false_eq_true] at hpll
              by_cases hsc : line.hasSkipCert = true
              · simp only [hsc, if_true] at hpll
                exact skip_preserves_inv _ _ _ _ _ _ hpll hIs
              · simp only [hsc, if_false, Bool.false_eq_true] at hpll
                by_cases hpe : line.hasPublishedEvent = true
                · simp only [hpe, if_true] at hpll
                  obtain ⟨h1, h2, h3⟩ := publish_fields_eq _ _ _ _ _ _ _ hpll
                  exact ParserInv_of_fields_eq _ _ h1 h2 h3 hIs
                · simp only [hpe, if_false, Bool.false_eq_true] at hpll
                  cases hpll
                  exact hIs

theorem process_lines_preserves_inv (off : Int) :
    ∀ (lines : List Line) (st : ParserState) (reg : FileRegistry) (st2 : ParserState),
      process_lines off st reg lines = .ok st2 → ParserInv st → ParserInv st2 := by
  intro lines
  induction lines with
  | nil =>
    intro st reg st2 hok hI
    cases hok
    exact hI
  | cons l rest ih =>
    intro st reg st2 hok hI
    simp only [process_lines] at hok
    cases hpl : process_line off st reg l with
    | error e => rw [hpl] at hok; cases hok
    | ok p =>
      obtain ⟨st3, reg3⟩ := p
      rw [hpl] at hok
      exact ih st3 reg3 st2 hok (process_line_preserves_inv off st reg l st3 reg3 hpl hI)

theorem process_files_preserves_inv (off : Int) :
    ∀ (files : List (List Line)) (st : ParserState) (st2 : ParserState),
      process_files off st files = .ok st2 → ParserInv st → ParserInv st2 := by
  intro files
  induction files with
  | nil =>
    intro st st2 hok hI
    cases hok
    exact hI
  | cons f rest ih =>
    intro st st2 hok hI
    simp only [process_files, process_file] at hok
    cases hpf : process_lines off st ⟨[], []⟩ f with
    | error e => rw [hpf] at hok; cases hok
    | ok st3 =>
      rw [hpf] at hok
      exact ih st3 st2 hok (process_lines_preserves_inv off f st _ st3 hpf hI)

theorem ParserInv_init : ParserInv initState := by
  refine ⟨?_, ?_, ?_⟩
  · intro sid m hm
    simp [initState, alookup] at hm
  · intro e he
    simp [initState] at he
  · intro p hp
    simp [initState] at hp

theorem process_vote_threshold_shape (sd : SlotData) (votes : List VoteData)
    (θ : Nat) (label : String) (ps : ℚ) :
    process_vote_threshold sd votes θ label ps = ([], none) ∨
    ∃ t, process_vote_threshold sd votes θ label ps =
      ([⟨sd.valgroup_id, sd.slot, label ++ "_reached", "reached", t, none, none⟩,
        ⟨sd.valgroup_id, sd.slot, label, "phase", ps, none, some t⟩], some t) := by
  unfold process_vote_threshold
  exact vote_threshold_loop_shape sd θ label ps 0 (sortVotes votes)

theorem pvt_fst_of_snd_none (sd : SlotData) (votes : List VoteData) (θ : Nat)
    (label : String) (ps : ℚ)
    (h : (process_vote_threshold sd votes θ label ps).2 = none) :
    (process_vote_threshold sd votes θ label ps).1 = [] := by
  rcases process_vote_threshold_shape sd votes θ label ps with hsh | ⟨t, hsh⟩
  · rw [hsh]
  · simp only [hsh] at h
    simp at h

theorem pvt_fst_of_snd_some (sd : SlotData) (votes : List VoteData) (θ : Nat)
    (label : String) (ps : ℚ) (t : ℚ)
    (h : (process_vote_threshold sd votes θ label ps).2 = some t) :
    (process_vote_threshold sd votes θ label ps).1 =
      [⟨sd.valgroup_id, sd.slot, label ++ "_reached", "reached", t, none, none⟩,
       ⟨sd.valgroup_id, sd.slot, label, "phase", ps, none, some t⟩] := by
  rcases process_vote_threshold_shape sd votes θ label ps with hsh | ⟨t2, hsh⟩
  · simp only [hsh] at h
    simp at h
  · simp only [hsh] at h ⊢
    have ht : t2 = t := by simpa using h
    subst ht
    rfl

/-- The collate-phase pair computed by `_infer_slot_events` for one slot
(the corresponding subterm of `infer_one`, named for the proofs). -/
def collPairOf (collated : List (slot_id_type × List (String × EventData)))
    (slot_id : slot_id_type) (slot_data : SlotData) : List EventData × Option ℚ :=
  match alookup slot_id collated with
  | none => ([], none)
  | some m =>
    match alookup "collate_started" m, alookup "collate_finished" m with
    | some cs, some cf =>
      ([⟨slot_data.valgroup_id, slot_data.slot, "collate", "phase",
          cs.t_ms, none, some cf.t_ms⟩], some cf.t_ms)
    | some _, none => ([], none)
    | none, _ => ([], none)

/-- The notarize pair of `_infer_slot_events` for one slot. -/
def notarPairOf (collated : List (slot_id_type × List (String × EventData)))
    (votes : List (slot_id_type × List (String × List VoteData)))
    (weight_threshold : Nat) (slot_id : slot_id_type) (slot_data : SlotData) :
    List EventData × Option ℚ :=
  match alookup slot_id votes with
  | none => ([], none)
  | some vm =>
    match alookup "NotarizeVote" vm, (collPairOf collated slot_id slot_data).2 with
    | some vs, some collate_end =>
      process_vote_threshold slot_data vs weight_threshold "notarize" collate_end
    | some _, none => ([], none)
    | none, _ => ([], none)

/-- The finalize pair of `_infer_slot_events` for one slot. -/
def finalPairOf (collated : List (slot_id_type × List (String × EventData)))
    (votes : List (slot_id_type × List (String × List VoteData)))
    (weight_threshold : Nat) (slot_id : slot_id_type) (slot_data : SlotData) :
    List EventData × Option ℚ :=
  match alookup slot_id votes with
  | none => ([], none)
  | some vm =>
    match alookup "FinalizeVote" vm,
        (notarPairOf collated votes weight_threshold slot_id slot_data).2 with
    | some vs, some notarize_reached =>
      process_vote_threshold slot_data vs weight_threshold "finalize" notarize_reached
    | some _, none => ([], none)
    | none, _ => ([], none)

theorem infer_one_eq (collated : List (slot_id_type × List (String × EventData)))
    (votes : List (slot_id_type × List (String × List VoteData)))
    (tw : List (String × Nat)) (p : slot_id_type × SlotData) :
    infer_one collated votes tw p =
      match alookup p.1.1 tw with
      | none => .error (.keyError p.1.1)
      | some total_weight =>
        .ok ((⟨p.2.valgroup_id, p.2.slot, "slot_start_est", "estimate",
            p.2.slot_start_est_ms, none, none⟩ : EventData) ::
          ((collPairOf collated p.1 p.2).1 ++
           (notarPairOf collated votes (total_weight * 2 / 3 + 1) p.1 p.2).1 ++
           (finalPairOf collated votes (total_weight * 2 / 3 + 1) p.1 p.2).1)) := rfl

theorem collPair_mem (collated : List (slot_id_type × List (String × EventData)))
    (sid : slot_id_type) (sd : SlotData) :
    ∀ e ∈ (collPairOf collated sid sd).1,
      e.valgroup_id = sd.valgroup_id ∧ e.slot = sd.slot ∧
        e.label = "collate" ∧ e.kind = "phase" := by
  intro e he
  unfold collPairOf at he
  cases hc : alookup sid collated with
  | none => simp only [hc] at he; simp at he
  | some m =>
    simp only [hc] at he
    cases hcs : alookup "collate_started" m with
    | none => simp only [hcs] at he; simp at he
    | some cs =>
      simp only [hcs] at he
      cases hcf : alookup "collate_finished" m with
      | none => simp only [hcf] at he; simp at he
      | some cf =>
        simp only [hcf] at he
        simp only [List.mem_cons, List.not_mem_nil, or_false] at he
        subst he
        exact ⟨rfl, rfl, rfl, rfl⟩

theorem collPair_snd (collated : List (slot_id_type × List (String × EventData)))
    (sid : slot_id_type) (sd : SlotData) (x : ℚ)
    (h : (collPairOf collated sid sd).2 = some x) :
    ∃ m cs cf, alookup sid collated = some m ∧
      alookup "collate_started" m = some cs ∧
      alookup "collate_finished" m = some cf := by
  unfold collPairOf at h
  cases hc : alookup sid collated with
  | none => simp only [hc] at h; simp at h
  | some m =>
    simp only [hc] at h
    cases hcs : alookup "collate_started" m with
    | none => simp only [hcs] at h; simp at h
    | some cs =>
      simp only [hcs] at h
      cases hcf : alookup "collate_finished" m with
      | none => simp only [hcf] at h; simp at h
      | some cf => exact ⟨m, cs, cf, rfl, hcs, hcf⟩

theorem notarPair_mem (collated : List (slot_id_type × List (String × EventData)))
    (votes : List (slot_id_type × List (String × List VoteData)))
    (wt : Nat) (sid : slot_id_type) (sd : SlotData) :
    ∀ e ∈ (notarPairOf collated votes wt sid sd).1,
      e.valgroup_id = sd.valgroup_id ∧ e.slot = sd.slot ∧
        (e.label = "notarize_reached" ∧ e.kind = "reached" ∨
         e.label = "notarize" ∧ e.kind = "phase") := by
  intro e he
  unfold notarPairOf at he
  cases hv : alookup sid votes with
  | none => simp only [hv] at he; simp at he
  | some vm =>
    simp only [hv] at he
    cases hnv : alookup "NotarizeVote" vm with
    | none => simp only [hnv] at he; simp at he
    | some vs =>
      simp only [hnv] at he
      cases hc2 : (collPairOf collated sid sd).2 with
      | none => simp only [hc2] at he; simp at he
      | some ce =>
        simp only [hc2] at he
        rcases process_vote_threshold_shape sd vs wt "notarize" ce with hsh | ⟨t, hsh⟩
        · simp only [hsh] at he
          simp at he
        · simp only [hsh] at he
          simp only [List.mem_cons, List.not_mem_nil, or_false] at he
          rcases he with rfl | rfl
          · exact ⟨rfl, rfl, Or.inl ⟨rfl, rfl⟩⟩
          · exact ⟨rfl, rfl, Or.inr ⟨rfl, rfl⟩⟩

theorem finalPair_mem (collated : List (slot_id_type × List (String × EventData)))
    (votes : List (slot_id_type × List (String × List VoteData)))
    (wt : Nat) (sid : slot_id_type) (sd : SlotData) :
    ∀ e ∈ (finalPairOf collated votes wt sid sd).1,
      e.valgroup_id = sd.valgroup_id ∧ e.slot = sd.slot ∧
        (e.label = "finalize_reached" ∧ e.kind = "reached" ∨
         e.label = "finalize" ∧ e.kind = "phase") := by
  intro e he
  unfold finalPairOf at he
  cases hv : alookup sid votes with
  | none => simp only [hv] at he; simp at he
  | some vm =>
    simp only [hv] at he
    cases hfv : alookup "FinalizeVote" vm with
    | none => simp only [hfv] at he; simp at he
    | some vs =>
      simp only [hfv] at he
      cases hn2 : (notarPairOf collated votes wt sid sd).2 with
      | none => simp only [hn2] at he; simp at he
      | some nr =>
        simp only [hn2] at he
        rcases process_vote_threshold_shape sd vs wt "finalize" nr with hsh | ⟨t, hsh⟩
        · simp only [hsh] at he
          simp at he
        · simp only [hsh] at he
          simp only [List.mem_cons, List.not_mem_nil, or_false] at he
          rcases he with rfl | rfl
          · exact ⟨rfl, rfl, Or.inl ⟨rfl, rfl⟩⟩
          · exact ⟨rfl, rfl, Or.inr ⟨rfl, rfl⟩⟩

theorem notarPair_ne_nil (collated : List (slot_id_type × List (String × EventData)))
    (votes : List (slot_id_type × List (String × List VoteData)))
    (wt : Nat) (sid : slot_id_type) (sd : SlotData)
    (h : (notarPairOf collated votes wt sid sd).1 ≠ []) :
    ∃ ce, (collPairOf collated sid sd).2 = some ce := by
  unfold notarPairOf at h
  cases hv : alookup sid votes with
  | none => simp only [hv] at h; simp at h
  | some vm =>
    simp only [hv] at h
    cases hnv : alookup "NotarizeVote" vm with
    | none => simp only [hnv] at h; simp at h
    | some vs =>
      simp only [hnv] at h
      cases hc2 : (collPairOf collated sid sd).2 with
      | none => simp only [hc2] at h; simp at h
      | some ce => exact ⟨ce, rfl⟩

theorem finalPair_ne_nil (collated : List (slot_id_type × List (String × EventData)))
    (votes : List (slot_id_type × List (String × List VoteData)))
    (wt : Nat) (sid : slot_id_type) (sd : SlotData)
    (h : (finalPairOf collated votes wt sid sd).1 ≠ []) :
    ∃ nr, (notarPairOf collated votes wt sid sd).2 = some nr := by
  unfold finalPairOf at h
  cases hv : alookup sid votes with
  | none => simp only [hv] at h; simp at h
  | some vm =>
    simp only [hv] at h
    cases hfv : alookup "FinalizeVote" vm with
    | none => simp only [hfv] at h; simp at h
    | some vs =>
      simp only [hfv] at h
      cases hn2 : (notarPairOf collated votes wt sid sd).2 with
      | none => simp only [hn2] at h; simp at h
      | some nr => exact ⟨nr, rfl⟩

theorem notarPair_snd_phase (collated : List (slot_id_type × List (String × EventData)))
    (votes : List (slot_id_type × List (String × List VoteData)))
    (wt : Nat) (sid : slot_id_type) (sd : SlotData) (t : ℚ)
    (h : (notarPairOf collated votes wt sid sd).2 = some t) :
    ∃ e ∈ (notarPairOf collated votes wt sid sd).1,
      e.label = "notarize" ∧ e.kind = "phase" := by
  unfold notarPairOf at h ⊢
  cases hv : alookup sid votes with
  | none => simp only [hv] at h; simp at h
  | some vm =>
    simp only [hv] at h ⊢
    cases hnv : alookup "NotarizeVote" vm with
    | none => simp only [hnv] at h; simp at h
    | some vs =>
      simp only [hnv] at h ⊢
      cases hc2 : (collPairOf collated sid sd).2 with
      | none => simp only [hc2] at h; simp at h
      | some ce =>
        simp only [hc2] at h ⊢
        rw [pvt_fst_of_snd_some sd vs wt "notarize" ce t h]
        exact ⟨⟨sd.valgroup_id, sd.slot, "notarize", "phase", ce, none, some t⟩,
          by simp, rfl, rfl⟩

/-- Per-slot analysis of the inference block: every event in the block
carries the slot's committee and number; a `finalize` phase event implies a
`notarize` phase event in the same block; and a `notarize` phase event
implies both collation markers were recorded for that slot. -/
theorem infer_one_block (collated : List (slot_id_type × List (String × EventData)))
    (votes : List (slot_id_type × List (String × List VoteData)))
    (tw : List (String × Nat)) (sid : slot_id_type) (sd : SlotData)
    (b : List EventData) (hok : infer_one collated votes tw (sid, sd) = .ok b) :
    (∀ e ∈ b, e.valgroup_id = sd.valgroup_id ∧ e.slot = sd.slot) ∧
    ((∃ e ∈ b, e.label = "finalize" ∧ e.kind = "phase") →
      ∃ e ∈ b, e.label = "notarize" ∧ e.kind = "phase") ∧
    ((∃ e ∈ b, e.label = "notarize" ∧ e.kind = "phase") →
      ∃ m cs cf, alookup sid collated = some m ∧
        alookup "collate_started" m = some cs ∧
        alookup "collate_finished" m = some cf) := by
  rw [infer_one_eq] at hok
  cases htw : alookup sid.1 tw with
  | none => simp only [htw] at hok; cases hok
  | some w =>
    simp only [htw] at hok
    have hb : b = (⟨sd.valgroup_id, sd.slot, "slot_start_est", "estimate",
        sd.slot_start_est_ms, none, none⟩ : EventData) ::
        ((collPairOf collated sid sd).1 ++
         (notarPairOf collated votes (w * 2 / 3 + 1) sid sd).1 ++
         (finalPairOf collated votes (w * 2 / 3 + 1) sid sd).1) :=
      (Except.ok.inj hok).symm
    subst hb
    refine ⟨?_, ?_, ?_⟩
    · intro e he
      rcases List.mem_cons.mp he with rfl | he
      · exact ⟨rfl, rfl⟩
      · rcases List.mem_append.mp he with he | he
        · rcases List.mem_append.mp he with he | he
          · obtain ⟨h1, h2, -⟩ := collPair_mem collated sid sd e he
            exact ⟨h1, h2⟩
          · obtain ⟨h1, h2, -⟩ := notarPair_mem collated votes _ sid sd e he
            exact ⟨h1, h2⟩
        · obtain ⟨h1, h2, -⟩ := finalPair_mem collated votes _ sid sd e he
          exact ⟨h1, h2⟩
    · rintro ⟨e, he, hlab, hkind⟩
      rcases List.mem_cons.mp he with rfl | he
      · exact absurd hlab (by simp)
      · rcases List.mem_append.mp he with he | he
        · rcases List.mem_append.mp he with he | he
          · obtain ⟨-, -, hl3, -⟩ := collPair_mem collated sid sd e he
            rw [hl3] at hlab
            exact absurd hlab (by simp)
          · obtain ⟨-, -, hl3⟩ := notarPair_mem collated votes _ sid sd e he
            rcases hl3 with ⟨hl3, -⟩ | ⟨hl3, -⟩ <;> rw [hl3] at hlab <;>
              exact absurd hlab (by simp)
        · obtain ⟨nr, hn2⟩ := finalPair_ne_nil collated votes _ sid sd
            (List.ne_nil_of_mem he)
          obtain ⟨e2, he2, hl2, hk2⟩ :=
            notarPair_snd_phase collated votes _ sid sd nr hn2
          exact ⟨e2, List.mem_cons_of_mem _
            (List.mem_append.mpr (Or.inl (List.mem_append.mpr (Or.inr he2)))),
            hl2, hk2⟩
    · rintro ⟨e, he, hlab, hkind⟩
      rcases List.mem_cons.mp he with rfl | he
      · exact absurd hlab (by simp)
      · rcases List.mem_append.mp he with he | he
        · rcases List.mem_append.mp he with he | he
          · obtain ⟨-, -, hl3, -⟩ := collPair_mem collated sid sd e he
            rw [hl3] at hlab
            exact absurd hlab (by simp)
          · obtain ⟨ce, hc2⟩ := notarPair_ne_nil collated votes _ sid sd
              (List.ne_nil_of_mem he)
            exact collPair_snd collated sid sd ce hc2
        · obtain ⟨-, -, hl3⟩ := finalPair_mem collated votes _ sid sd e he
          rcases hl3 with ⟨hl3, -⟩ | ⟨hl3, -⟩ <;> rw [hl3] at hlab <;>
            exact absurd hlab (by simp)

theorem infer_blocks_mem_src (collated : List (slot_id_type × List (String × EventData)))
    (votes : List (slot_id_type × List (String × List VoteData)))
    (tw : List (String × Nat)) :
    ∀ (slots : List (slot_id_type × SlotData)) (evs : List EventData),
      infer_blocks collated votes tw slots = .ok evs →
      ∀ e ∈ evs, ∃ p ∈ slots, ∃ b2, infer_one collated votes tw p = .ok b2 ∧ e ∈ b2 := by
  intro slots
  induction slots with
  | nil =>
    intro evs hok e he
    cases hok
    simp at he
  | cons q rest ih =>
    intro evs hok e he
    simp only [infer_blocks] at hok
    cases hq : infer_one collated votes tw q with
    | error err => simp only [hq] at hok; cases hok
    | ok b2 =>
      simp only [hq] at hok
      cases hrest : infer_blocks collated votes tw rest with
      | error err => simp only [hrest] at hok; cases hok
      | ok bs =>
        simp only [hrest] at hok
        cases hok
        rcases List.mem_append.mp he with he | he
        · exact ⟨q, List.mem_cons_self q rest, b2, hq, he⟩
        · obtain ⟨p, hp, b3, h3, he3⟩ := ih bs hrest e he
          exact ⟨p, List.mem_cons_of_mem _ hp, b3, h3, he3⟩

theorem infer_blocks_mem_tgt (collated : List (slot_id_type × List (String × EventData)))
    (votes : List (slot_id_type × List (String × List VoteData)))
    (tw : List (String × Nat)) :
    ∀ (slots : List (slot_id_type × SlotData)) (evs : List EventData),
      infer_blocks collated votes tw slots = .ok evs →
      ∀ p ∈ slots, ∀ b2, infer_one collated votes tw p = .ok b2 →
      ∀ e ∈ b2, e ∈ evs := by
  intro slots
  induction slots with
  | nil =>
    intro evs hok p hp
    cases hp
  | cons q rest ih =>
    intro evs hok p hp b2 h2 e he
    simp only [infer_blocks] at hok
    cases hq : infer_one collated votes tw q with
    | error err => simp only [hq] at hok; cases hok
    | ok bq =>
      simp only [hq] at hok
      cases hrest : infer_blocks collated votes tw rest with
      | error err => simp only [hrest] at hok; cases hok
      | ok bs =>
        simp only [hrest] at hok
        cases hok
        rcases List.mem_cons.mp hp with rfl | hp
        · have hbq : bq = b2 := by
            rw [hq] at h2
            exact Except.ok.inj h2
          subst hbq
          exact List.mem_append.mpr (Or.inl he)
        · exact List.mem_append.mpr (Or.inr (ih bs hrest p hp b2 h2 e he))

/-- C5.  In every successfully parsed snapshot, a `finalize` phase event
for a (committee, slot) exists only if a `notarize` phase event exists for
the same (committee, slot), and a `notarize` phase event exists only if
both a `collate_started` and a `collate_finished` local event were
recorded for that (committee, slot). -/
theorem finalize_notarize_collate_chain :
    ∀ (off : Int) (files : List (List Line)) (d : ConsensusData),
      parse off files = .ok d →
      ∀ g s,
        (hasEvent d.events g s "finalize" "phase" →
          hasEvent d.events g s "notarize" "phase") ∧
        (hasEvent d.events g s "notarize" "phase" →
          hasEvent d.events g s "collate_started" "local" ∧
          hasEvent d.events g s "collate_finished" "local") := by
  intro off files d hok g s
  unfold parse parse_from at hok
  cases hpf : process_files off initState files with
  | error e => simp only [hpf] at hok; cases hok
  | ok st1 =>
    simp only [hpf] at hok
    cases hinf : infer_slot_events st1 with
    | error e => simp only [hinf] at hok; cases hok
    | ok st2 =>
      simp only [hinf] at hok
      cases hok
      obtain ⟨hA, hB, hC⟩ :=
        process_files_preserves_inv off files initState st1 hpf ParserInv_init
      unfold infer_slot_events at hinf
      cases hblk : infer_blocks st1.collated st1.votes st1.total_weights st1.slots with
      | error e => simp only [hblk] at hinf; cases hinf
      | ok blocks =>
        simp only [hblk] at hinf
        cases hinf
        have hphase : ∀ lab, hasEvent (st1.events ++ blocks) g s lab "phase" →
            ∃ sid sd b2, ((sid, sd) : slot_id_type × SlotData) ∈ st1.slots ∧
              infer_one st1.collated st1.votes st1.total_weights (sid, sd) = .ok b2 ∧
              sid = ((g, s) : slot_id_type) ∧
              ∃ e ∈ b2, e.label = lab ∧ e.kind = "phase" := by
          rintro lab ⟨e, he, hg, hs2, hl, hk⟩
          rcases List.mem_append.mp he with he | he
          · have hkd := hB e he
            rw [hk] at hkd
            rcases hkd with hkd | hkd <;> simp at hkd
          · obtain ⟨p, hp, b2, h2, he2⟩ :=
              infer_blocks_mem_src st1.collated st1.votes st1.total_weights
                st1.slots blocks hblk e he
            obtain ⟨sid, sd⟩ := p
            obtain ⟨hf1, -, -⟩ :=
              infer_one_block st1.collated st1.votes st1.total_weights sid sd b2 h2
            obtain ⟨hev, hes⟩ := hf1 e he2
            obtain ⟨hk1, hk2⟩ := hC (sid, sd) hp
            have hsid : sid = ((g, s) : slot_id_type) := by
              obtain ⟨sg, ss⟩ := sid
              have h1 : sg = g := by
                rw [← hg, hev]
                exact hk1.symm
              have h2s : ss = s := by
                rw [← hs2, hes]
                exact hk2.symm
              rw [h1, h2s]
            exact ⟨sid, sd, b2, hp, h2, hsid, e, he2, hl, hk⟩
        refine ⟨?_, ?_⟩
        · intro hfin
          obtain ⟨sid, sd, b2, hp, h2, hsid, e, he2, hl, hk⟩ := hphase "finalize" hfin
          obtain ⟨hf1, hf2, -⟩ :=
            infer_one_block st1.collated st1.votes st1.total_weights sid sd b2 h2
          obtain ⟨e2, he3, hl2, hk2⟩ := hf2 ⟨e, he2, hl, hk⟩
          obtain ⟨hev2, hes2⟩ := hf1 e2 he3
          obtain ⟨hk1, hk2b⟩ := hC (sid, sd) hp
          refine ⟨e2, ?_, ?_, ?_, hl2, hk2⟩
          · exact List.mem_append.mpr (Or.inr
              (infer_blocks_mem_tgt st1.collated st1.votes st1.total_weights
                st1.slots blocks hblk (sid, sd) hp b2 h2 e2 he3))
          · rw [hev2, hk1, hsid]
          · rw [hes2, hk2b, hsid]
        · intro hnot
          obtain ⟨sid, sd, b2, hp, h2, hsid, e, he2, hl, hk⟩ := hphase "notarize" hnot
          obtain ⟨-, -, hf3⟩ :=
            infer_one_block st1.collated st1.votes st1.total_weights sid sd b2 h2
          obtain ⟨m, cs, cf, hm, hcs, hcf⟩ := hf3 ⟨e, he2, hl, hk⟩
          rw [hsid] at hm
          constructor
          · have := hA (g, s) m hm "collate_started" cs hcs
            exact hasEvent_mono this
          · have := hA (g, s) m hm "collate_finished" cf hcf
            exact hasEvent_mono this

/-- Witness for C5 at the empty input: `parse` succeeds and the chain
implications hold for committee `mc.0`, slot 5. -/
theorem finalize_notarize_collate_chain_witness :
    (hasEvent (ConsensusData.mk [] []).events "mc.0" 5 "finalize" "phase" →
      hasEvent (ConsensusData.mk [] []).events "mc.0" 5 "notarize" "phase") ∧
    (hasEvent (ConsensusData.mk [] []).events "mc.0" 5 "notarize" "phase" →
      hasEvent (ConsensusData.mk [] []).events "mc.0" 5 "collate_started" "local" ∧
      hasEvent (ConsensusData.mk [] []).events "mc.0" 5 "collate_finished" "local") :=
  finalize_notarize_collate_chain 0 [] ⟨[], []⟩ rfl "mc.0" 5

/-! ## File order (C2) -/

/-- Number of derived next-leader events in a snapshot. -/
def countNextLeader (d : ConsensusData) : Nat :=
  d.events.countP (fun e => e.label = "finalize_observed_by_next_leader")

/-- The snapshot of a parse, defaulting to the empty snapshot on error. -/
def parseD (off : Int) (files : List (List Line)) : ConsensusData :=
  (parse off files).toOption.getD ⟨[], []⟩

/-- Counterexample to C2 as stated: with `fileA` announcing the leader
window for slot 6 and `fileB` containing a FinalObserved line for slot 5
by that leader, parsing `[fileA, fileB]` emits one
`finalize_observed_by_next_leader` event while parsing `[fileB, fileA]`
emits none — the two final Event lists differ as multisets, so the final
parsed state depends on the order in which the files are parsed. -/
theorem parse_file_order_dependent_cex :
    (parse 0 [fileA, fileB]).map countNextLeader = .ok 1 ∧
    (parse 0 [fileB, fileA]).map countNextLeader = .ok 0 := by
  exact ⟨rfl, rfl⟩

/-- The per-file registry after one line (the registry part of
`process_line` on the success path; analysis helper). -/
def line_reg_step (off : Int) (reg : FileRegistry) (line : Line) : FileRegistry :=
  match extract_timestamp off line, extract_valgroup line with
  | some _, some g =>
    if line.hasWeAreValidator then
      match line.validatorIdTok, line.weightTok with
      | some vid, some w => ⟨aset g vid reg.v_groups, aset g w reg.v_weights⟩
      | some _, none => reg
      | none, _ => reg
    else reg
  | _, _ => reg

/-- The slot keys guaranteed present after processing one line from the
given per-file registry (analysis helper). -/
def line_keys (off : Int) (reg : FileRegistry) (line : Line) : List slot_id_type :=
  match extract_timestamp off line, extract_valgroup line with
  | some _, some g =>
    match alookup g (line_reg_step off reg line).v_groups with
    | none => []
    | some _ =>
      if line.hasStatsTargetReached then
        match line.statsTok with
        | some q => [(g, q.2)]
        | none => []
      else if line.hasSkipCert then
        match line.slotTok with
        | some slot => [(g, slot)]
        | none => []
      else []
  | _, _ => []

/-- The slot keys contributed by a whole file, threading the per-file
registry (analysis helper): a function of the file alone. -/
def file_keys_from (off : Int) (reg : FileRegistry) : List Line → List slot_id_type
  | [] => []
  | l :: rest => line_keys off reg l ++ file_keys_from off (line_reg_step off reg l) rest

/-- The slot keys contributed by a file, starting from the fresh per-file
registry. -/
def file_keys (off : Int) (lines : List Line) : List slot_id_type :=
  file_keys_from off ⟨[], []⟩ lines

theorem alookup_aset_isSome {α β : Type} [DecidableEq α] (k k2 : α) (v : β)
    (l : List (α × β)) :
    (alookup k (aset k2 v l)).isSome = true ↔
      ((alookup k l).isSome = true ∨ k = k2) := by
  by_cases h : k2 = k
  · subst h
    simp [alookup_aset_self]
  · rw [alookup_aset_ne h]
    constructor
    · exact Or.inl
    · rintro (h2 | h2)
      · exact h2
      · exact absurd h2 (fun hh => h hh.symm)

theorem stats_slots_aset (st : ParserState) (line : Line) (t : ℚ) (vg : String)
    (v : Nat) (target : String) (slot : Nat)
    (h : line.statsTok = some (target, slot)) :
    ∃ val, (parse_stats_target_reached st line t vg v).slots =
      aset (vg, slot) val st.slots := by
  cases hl : alookup ((vg, slot) : slot_id_type) st.slots with
  | none =>
    simp only [parse_stats_target_reached, h, hl, alookup_aset_self, aset_aset]
    repeat' split
    all_goals exact ⟨_, rfl⟩
  | some sd =>
    simp only [parse_stats_target_reached, h, hl, alookup_aset_self, aset_aset]
    repeat' split
    all_goals exact ⟨_, rfl⟩

theorem skip_slots_aset (st : ParserState) (line : Line) (t : ℚ) (vg : String)
    (v : Nat) (slot : Nat) (st2 : ParserState)
    (h : line.slotTok = some slot)
    (hok : parse_skip_vote st line t vg v = .ok st2) :
    ∃ val, st2.slots = aset (vg, slot) val st.slots := by
  simp only [parse_skip_vote, h] at hok
  cases hl : alookup ((vg, slot) : slot_id_type) st.slots with
  | none =>
    simp only [hl] at hok
    cases hok
    exact ⟨_, rfl⟩
  | some sd =>
    simp only [hl] at hok
    cases hok
    exact ⟨_, rfl⟩

theorem process_line_keys (off : Int) (st : ParserState) (reg : FileRegistry)
    (line : Line) (st2 : ParserState) (reg2 : FileRegistry)
    (hok : process_line off st reg line = .ok (st2, reg2)) :
    reg2 = line_reg_step off reg line ∧
    ∀ k, (alookup k st2.slots).isSome = true ↔
      ((alookup k st.slots).isSome = true ∨ k ∈ line_keys off reg line) := by
  unfold process_line at hok
  cases hts : extract_timestamp off line with
  | none =>
    simp only [hts] at hok
    cases hok
    exact ⟨by simp [line_reg_step, hts], fun k => by simp [line_keys, hts]⟩
  | some t =>
    simp only [hts] at hok
    cases hvg : extract_valgroup line with
    | none =>
      simp only [hvg] at hok
      cases hok
      exact ⟨by simp [line_reg_step, hts, hvg], fun k => by simp [line_keys, hts, hvg]⟩
    | some vg =>
      simp only [hvg] at hok
      have hreg : ∀ reg3 tw, parse_validator_info line vg reg st.total_weights =
          .ok (reg3, tw) → reg3 = line_reg_step off reg line := by
        intro reg3 tw hvi
        unfold parse_validator_info at hvi
        unfold line_reg_step
        rw [hts, hvg]
        by_cases hwv : line.hasWeAreValidator = true
        · simp only [hwv, not_true, if_false, Bool.not_true, reduceIte] at hvi ⊢
          cases hvt : line.validatorIdTok with
          | none => simp only [hvt] at hvi; cases hvi
          | some vid =>
            simp only [hvt] at hvi ⊢
            cases hwt : line.weightTok with
            | none => simp only [hwt] at hvi; cases hvi
            | some w =>
              simp only [hwt] at hvi ⊢
              cases hot : line.outOfTok with
              | none => simp only [hot] at hvi; cases hvi
              | some tv =>
                simp only [hot] at hvi
                exact (congrArg Prod.fst (Except.ok.inj hvi)).symm
        · have hwv2 : line.hasWeAreValidator = false := by
            cases hb : line.hasWeAreValidator
            · rfl
            · exact absurd hb hwv
          simp only [hwv2, Bool.not_false, reduceIte] at hvi ⊢
          exact (congrArg Prod.fst (Except.ok.inj hvi)).symm
      cases hvi : parse_validator_info line vg reg st.total_weights with
      | error e => simp only [hvi] at hok; cases hok
      | ok p =>
        obtain ⟨reg3, tw⟩ := p
        simp only [hvi] at hok
        have hr3 : reg3 = line_reg_step off reg line := hreg reg3 tw hvi
        cases hpll : process_log_line { st with total_weights := tw } line vg t reg3 with
        | error e => simp only [hpll] at hok; cases hok
        | ok st3 =>
          simp only [hpll] at hok
          have hinj := Except.ok.inj hok
          have hst : st3 = st2 := congrArg Prod.fst hinj
          have hrg : reg3 = reg2 := congrArg Prod.snd hinj
          subst hst
          refine ⟨by rw [← hrg, hr3], ?_⟩
          intro k
          have hlk : line_keys off reg line =
              match alookup vg reg3.v_groups with
              | none => []
              | some _ =>
                if line.hasStatsTargetReached then
                  match line.statsTok with
                  | some q => [(vg, q.2)]
                  | none => []
                else if line.hasSkipCert then
                  match line.slotTok with
                  | some slot => [(vg, slot)]
                  | none => []
                else [] := by
            unfold line_keys
            rw [hts, hvg, ← hr3]
          unfold process_log_line at hpll
          cases hvid : alookup vg reg3.v_groups with
          | none =>
            rw [hvid] at hpll
            cases hpll
            simp [hlk, hvid]
          | some vid =>
            rw [hvid] at hpll
            by_cases hsr : line.hasStatsTargetReached = true
            · simp only [hsr, if_true] at hpll
              cases hpll
              cases hstats : line.statsTok with
              | none =>
                have heq : parse_stats_target_reached
                    ({ st with total_weights := tw } : ParserState) line t vg vid =
                    { st with total_weights := tw } := by
                  simp [parse_stats_target_reached, hstats]
                rw [heq]
                simp [hlk, hvid, hsr, hstats]
              | some q =>
                obtain ⟨target, slot⟩ := q
                obtain ⟨val, hval⟩ := stats_slots_aset _ line t vg vid target slot hstats
                rw [hval]
                rw [alookup_aset_isSome]
                simp [hlk, hvid, hsr, hstats]
            · simp only [hsr, if_false, Bool.false_eq_true] at hpll
              by_cases hsc : line.hasSkipCert = true
              · simp only [hsc, if_true] at hpll
                cases hslot : line.slotTok with
                | none =>
                  simp [parse_skip_vote, hslot] at hpll
                | some slot =>
                  obtain ⟨val, hval⟩ := skip_slots_aset _ line t vg vid slot st3 hslot hpll
                  rw [hval]
                  rw [alookup_aset_isSome]
                  simp [hlk, hvid, hsr, hsc, hslot]
              · simp only [hsc, if_false, Bool.false_eq_true] at hpll
                by_cases hpe : line.hasPublishedEvent = true
                · simp only [hpe, if_true] at hpll
                  obtain ⟨-, hsl⟩ := publish_state_shape _ line t vg vid reg3.v_weights st3 hpll
                  rw [hsl]
                  simp [hlk, hvid, hsr, hsc]
                · simp only [hpe, if_false, Bool.false_eq_true] at hpll
                  cases hpll
                  simp [hlk, hvid, hsr, hsc]

theorem process_lines_keys (off : Int) :
    ∀ (lines : List Line) (st : ParserState) (reg : FileRegistry) (st2 : ParserState),
      process_lines off st reg lines = .ok st2 →
      ∀ k, (alookup k st2.slots).isSome = true ↔
        ((alookup k st.slots).isSome = true ∨ k ∈ file_keys_from off reg lines) := by
  intro lines
  induction lines with
  | nil =>
    intro st reg st2 hok k
    cases hok
    simp [file_keys_from]
  | cons l rest ih =>
    intro st reg st2 hok k
    simp only [process_lines] at hok
    cases hpl : process_line off st reg l with
    | error e => rw [hpl] at hok; cases hok
    | ok p =>
      obtain ⟨st3, reg3⟩ := p
      rw [hpl] at hok
      obtain ⟨hr3, hkeys⟩ := process_line_keys off st reg l st3 reg3 hpl
      rw [hr3] at hok
      have := ih st3 (line_reg_step off reg l) st2 hok k
      rw [this, hkeys k]
      simp only [file_keys_from, List.mem_append]
      tauto

theorem process_files_keys (off : Int) :
    ∀ (files : List (List Line)) (st : ParserState) (st2 : ParserState),
      process_files off st files = .ok st2 →
      ∀ k, (alookup k st2.slots).isSome = true ↔
        ((alookup k st.slots).isSome = true ∨ ∃ f ∈ files, k ∈ file_keys off f) := by
  intro files
  induction files with
  | nil =>
    intro st st2 hok k
    cases hok
    simp
  | cons f rest ih =>
    intro st st2 hok k
    simp only [process_files, process_file] at hok
    cases hpf : process_lines off st ⟨[], []⟩ f with
    | error e => rw [hpf] at hok; cases hok
    | ok st3 =>
      rw [hpf] at hok
      have h1 := process_lines_keys off f st ⟨[], []⟩ st3 hpf k
      have h2 := ih st3 st2 hok k
      rw [h2, h1]
      simp only [List.mem_cons]
      constructor
      · rintro ((h | h) | ⟨f2, hf2, h⟩)
        · exact Or.inl h
        · exact Or.inr ⟨f, Or.inl rfl, h⟩
        · exact Or.inr ⟨f2, Or.inr hf2, h⟩
      · rintro (h | ⟨f2, hf2 | hf2, h⟩)
        · exact Or.inl (Or.inl h)
        · subst hf2
          exact Or.inl (Or.inr h)
        · exact Or.inr ⟨f2, hf2, h⟩

/-- C2 amended: the SET of slot keys in the final snapshot is invariant
under permuting the input files (each file's contribution is a function of
that file alone), even though the full snapshot is not (see
`parse_file_order_dependent_cex`). -/
theorem parse_slot_keys_perm_invariant :
    ∀ (off : Int) (files1 files2 : List (List Line)) (d1 d2 : ConsensusData),
      files1.Perm files2 →
      parse off files1 = .ok d1 → parse off files2 = .ok d2 →
      ∀ g s, ((∃ sd ∈ d1.slots, sd.valgroup_id = g ∧ sd.slot = s) ↔
              (∃ sd ∈ d2.slots, sd.valgroup_id = g ∧ sd.slot = s)) := by
  have key : ∀ (off : Int) (files : List (List Line)) (d : ConsensusData),
      parse off files = .ok d →
      ∀ g s, ((∃ sd ∈ d.slots, sd.valgroup_id = g ∧ sd.slot = s) ↔
        ∃ f ∈ files, ((g, s) : slot_id_type) ∈ file_keys off f) := by
    intro off files d hok g s
    unfold parse parse_from at hok
    cases hpf : process_files off initState files with
    | error e => simp only [hpf] at hok; cases hok
    | ok st1 =>
      simp only [hpf] at hok
      cases hinf : infer_slot_events st1 with
      | error e => simp only [hinf] at hok; cases hok
      | ok st2 =>
        simp only [hinf] at hok
        cases hok
        obtain ⟨-, -, hC⟩ :=
          process_files_preserves_inv off files initState st1 hpf ParserInv_init
        have hsl : st2.slots = st1.slots := infer_slots_eq st1 st2 hinf
        have hkeys := process_files_keys off files initState st1 hpf ((g, s) : slot_id_type)
        have hinit : (alookup ((g, s) : slot_id_type) initState.slots).isSome = false := rfl
        rw [hinit] at hkeys
        simp only [Bool.false_eq_true, false_or] at hkeys
        rw [← hkeys]
        constructor
        · rintro ⟨sd, hsd, hg, hs⟩
          rw [hsl] at hsd
          obtain ⟨p, hp, hpsd⟩ := List.mem_map.mp hsd
          obtain ⟨h1, h2⟩ := hC p hp
          have hpk : p.1 = ((g, s) : slot_id_type) := by
            obtain ⟨pk, psd⟩ := p
            obtain ⟨pg, ps⟩ := pk
            simp only at hpsd h1 h2
            rw [hpsd] at h1 h2
            rw [hg] at h1
            rw [hs] at h2
            rw [← h1, ← h2]
          obtain ⟨v2, hv2⟩ := alookup_isSome_of_mem (l := st1.slots)
            (k := ((g, s) : slot_id_type)) (v := p.2) (by rw [← hpk]; exact hp)
          rw [hv2]
          rfl
        · intro hsome
          cases hlv : alookup ((g, s) : slot_id_type) st1.slots with
          | none => rw [hlv] at hsome; simp at hsome
          | some sd =>
            obtain ⟨h1, h2⟩ := hC ((g, s), sd) (mem_of_alookup_eq_some hlv)
            refine ⟨sd, ?_, h1, h2⟩
            rw [hsl]
            exact List.mem_map_of_mem Prod.snd (mem_of_alookup_eq_some hlv)
  intro off files1 files2 d1 d2 hperm h1 h2 g s
  rw [key off files1 d1 h1 g s, key off files2 d2 h2 g s]
  constructor
  · rintro ⟨f, hf, hk⟩
    exact ⟨f, hperm.mem_iff.mp hf, hk⟩
  · rintro ⟨f, hf, hk⟩
    exact ⟨f, hperm.mem_iff.mpr hf, hk⟩

/-- Witness for the amended C2: for the two-file input and its swap, the
slot key ("mc.0", 5) is present in one final snapshot iff it is present in
the other. -/
theorem parse_slot_keys_perm_invariant_witness :
    (∃ sd ∈ (parseD 0 [fileA, fileB]).slots, sd.valgroup_id = "mc.0" ∧ sd.slot = 5) ↔
    (∃ sd ∈ (parseD 0 [fileB, fileA]).slots, sd.valgroup_id = "mc.0" ∧ sd.slot = 5) :=
  parse_slot_keys_perm_invariant 0 [fileA, fileB] [fileB, fileA]
    (parseD 0 [fileA, fileB]) (parseD 0 [fileB, fileA]) (by decide) rfl rfl "mc.0" 5

end ConsensusVisualizer
